import Mathlib

/-!
# alog: category-filtered logger (`alog.go`)

A shallow embedding of the output pipeline of `alog.go`:
the flag constants, `itoa`, `formatHeader`, `Output`, `Outputb`, the setters,
the writer adapters, the discard sink and the default instance `std`.

Modelling conventions.

* A Go `string` and a Go `[]byte` are both `List UInt8` (a Go string is a byte
  sequence; `string(b)` and `[]byte(s)` keep the bytes).
* `FormatFlag` (a Go `int`) and the `uint64` category masks are held as `Nat`
  bit patterns; the code only combines them with `&` and `|`, which never
  leave the word, so no reduction modulo `2^64` is needed.  `^0` is `2^64 - 1`.
* The Go `int` arguments of `itoa` are `Int`; `wid--` wraps at 64 bits.
* A run-time panic (index out of range in `itoa`) is the result `none`.
* `time.Time` belongs to the Go standard library: a `Time` carries the
  broken-down fields that `Date`, `Clock` and `Nanosecond` return, in the
  instant's own location and in UTC, within the ranges the library documents.
* The sink `out` is an `io.Writer`; it is a function giving what its `Write`
  returns on a byte slice.  A `nil` sink is not modelled.  The calls made on
  the sink and on the override callback are returned as a trace.
* The override callback is a function from its arguments to the error it
  returns; what else a callback may do is outside the model.
* The mutex is not modelled: every operation is one sequential step.
-/

namespace alog

/-! ## Constants (`const` block, lines 16-46) -/

/-- `F_ALL FormatFlag = ^FormatFlag(0)` (iota = 0). -/
def F_ALL : Nat := 2 ^ 64 - 1
/-- `F_NONE FormatFlag = 0` (iota = 1). -/
def F_NONE : Nat := 0
/-- `F_DATE FormatFlag = 1 << iota` (iota = 2). -/
def F_DATE : Nat := 1 <<< 2
/-- `F_TIME` (iota = 3). -/
def F_TIME : Nat := 1 <<< 3
/-- `F_MICROSECONDS` (iota = 4). -/
def F_MICROSECONDS : Nat := 1 <<< 4
/-- `F_UTC` (iota = 5). -/
def F_UTC : Nat := 1 <<< 5
/-- `F_PREFIX` (iota = 6). -/
def F_PREFIX : Nat := 1 <<< 6

/-- `ALL uint64 = ^uint64(0)` (iota = 7). -/
def ALL : Nat := 2 ^ 64 - 1
/-- `C_ALL = ALL` (iota = 8). -/
def C_ALL : Nat := ALL
/-- `C_NONE uint64 = 0` (iota = 9). -/
def C_NONE : Nat := 0
/-- `C_DEBUG uint64 = 1 << iota` (iota = 10). -/
def C_DEBUG : Nat := 1 <<< 10
/-- `C_INFO` (iota = 11). -/
def C_INFO : Nat := 1 <<< 11
/-- `C_WARN` (iota = 12). -/
def C_WARN : Nat := 1 <<< 12
/-- `C_ERROR` (iota = 13). -/
def C_ERROR : Nat := 1 <<< 13
/-- `C_FATAL` (iota = 14). -/
def C_FATAL : Nat := 1 <<< 14
/-- `C_SYSTEM` (iota = 15). -/
def C_SYSTEM : Nat := 1 <<< 15
/-- `C_IO` (iota = 16). -/
def C_IO : Nat := 1 <<< 16
/-- `C_NET` (iota = 17). -/
def C_NET : Nat := 1 <<< 17
/-- `C_SERVICE` (iota = 18). -/
def C_SERVICE : Nat := 1 <<< 18
/-- `C_REQ` (iota = 19). -/
def C_REQ : Nat := 1 <<< 19
/-- `C_RES` (iota = 20). -/
def C_RES : Nat := 1 <<< 20
/-- `C_TIMED` (iota = 21). -/
def C_TIMED : Nat := 1 <<< 21
/-- `C_API` (iota = 22). -/
def C_API : Nat := 1 <<< 22
/-- `C_BACK` (iota = 23). -/
def C_BACK : Nat := 1 <<< 23
/-- `C_FRONT` (iota = 24). -/
def C_FRONT : Nat := 1 <<< 24
/-- `C_GLOBAL` (iota = 25). -/
def C_GLOBAL : Nat := 1 <<< 25

/-! ## Go values used by the logger -/

/-- A Go `error` value: `none` is `nil`. -/
abbrev GoError := Option String

/-- An `io.Writer`: what `Write(p)` returns, the count and the error. -/
abbrev Writer := List UInt8 → Int × GoError

/-- The override callback type `func(flagCat uint64, s string) error`. -/
abbrev AltFn := Nat → List UInt8 → GoError

/-- Broken-down fields of an instant in one location, as `Date()`, `Clock()`
and `Nanosecond()` return them: `year` is a Go `int`, the others lie in the
ranges documented by package `time`. -/
structure Clock where
  year : Int
  month : Int
  day : Int
  hour : Int
  min : Int
  sec : Int
  nsec : Int
  year_int : -(2 : Int) ^ 63 ≤ year ∧ year < 2 ^ 63
  month_range : 1 ≤ month ∧ month ≤ 12
  day_range : 1 ≤ day ∧ day ≤ 31
  hour_range : 0 ≤ hour ∧ hour ≤ 23
  min_range : 0 ≤ min ∧ min ≤ 59
  sec_range : 0 ≤ sec ∧ sec ≤ 59
  nsec_range : 0 ≤ nsec ∧ nsec ≤ 999999999

/-- A `time.Time`: its fields in its own location and in UTC. -/
structure Time where
  loc : Clock
  utc : Clock

/-- The method `t.UTC()`: the same instant with location UTC. -/
def Time.UTC (t : Time) : Time := { loc := t.utc, utc := t.utc }

/-- The struct `Alog` (lines 48-58), without the mutex. -/
structure Alog where
  prefix_ : List UInt8
  flagFormat : Nat
  flagCat : Nat
  out : Writer
  buf : List UInt8
  bAltOut : Bool
  altOutput : AltFn

/-- What one call did: the logger afterwards, the `Write` calls made on the
sink and the invocations of the override callback, each in order. -/
structure Res where
  l : Alog
  writes : List (List UInt8)
  altCalls : List (Nat × List UInt8)

/-! ## `itoa` (lines 88-100) -/

/-- Two's-complement wrap of an integer to a 64-bit Go `int`. -/
def wrapInt (x : Int) : Int := (x + 2 ^ 63) % 2 ^ 64 - 2 ^ 63

/-- The conversion `byte(x)` of a Go `int`: the low 8 bits. -/
def toByte (x : Int) : UInt8 := UInt8.ofNat (x % 256).toNat

/-- The loop of `itoa` and the statements after it, from the state where the
index `bp` is the given natural number.  The body stores at `b[bp]` and
decrements `bp`; once `bp` is `-1` the next store panics, whether it is the one
of the body or the one after the loop. -/
def itoaLoop : Nat → List UInt8 → Int → Int → Option (List UInt8)
  | bp, b, i, wid =>
    if i ≥ 10 ∨ wid > 1 then
      let wid1 := wrapInt (wid - 1)
      let q := Int.tdiv i 10
      let b1 := b.set bp (toByte (48 + i - q * 10))
      match bp with
      | 0 => none
      | bp1 + 1 => itoaLoop bp1 b1 q wid1
    else
      some ((b.set bp (toByte (48 + i))).drop bp)

/-- The function `itoa(buf *[]byte, i int, wid int)`: the new `*buf`, or `none` on a panic. -/
def itoa (buf : List UInt8) (i : Int) (wid : Int) : Option (List UInt8) :=
  (itoaLoop 19 (List.replicate 20 0) i wid).map (fun ds => buf ++ ds)

/-! ## `formatHeader` (lines 102-133) -/

/-- The `F_DATE` block of `formatHeader` (lines 107-115). -/
def formatDate (flagFormat : Nat) (buf : List UInt8) (t : Time) : Option (List UInt8) :=
  if flagFormat &&& F_DATE ≠ 0 then do
    let buf ← itoa buf t.loc.year 4
    let buf := buf ++ [47]
    let buf ← itoa buf t.loc.month 2
    let buf := buf ++ [47]
    let buf ← itoa buf t.loc.day 2
    pure (buf ++ [32])
  else
    pure buf

/-- The `F_TIME|F_MICROSECONDS` block of `formatHeader` (lines 116-128). -/
def formatClock (flagFormat : Nat) (buf : List UInt8) (t : Time) : Option (List UInt8) :=
  if flagFormat &&& (F_TIME ||| F_MICROSECONDS) ≠ 0 then do
    let buf ← itoa buf t.loc.hour 2
    let buf := buf ++ [58]
    let buf ← itoa buf t.loc.min 2
    let buf := buf ++ [58]
    let buf ← itoa buf t.loc.sec 2
    let buf ← (if flagFormat &&& F_MICROSECONDS ≠ 0 then
        itoa (buf ++ [46]) (Int.tdiv t.loc.nsec 1000) 6
      else
        pure buf)
    pure (buf ++ [32])
  else
    pure buf

/-- The method `(l *Alog) formatHeader(buf *[]byte, t time.Time)`: the new `*buf`. -/
def formatHeader (l : Alog) (buf : List UInt8) (t : Time) : Option (List UInt8) := do
  let buf ← (if l.flagFormat &&& (F_DATE ||| F_TIME ||| F_MICROSECONDS) ≠ 0 then do
      let t := if l.flagFormat &&& F_UTC ≠ 0 then t.UTC else t
      let buf ← formatDate l.flagFormat buf t
      formatClock l.flagFormat buf t
    else
      pure buf)
  if l.flagFormat &&& F_PREFIX ≠ 0 then
    pure (buf ++ l.prefix_)
  else
    pure buf

/-! ## `Output`, `Outputb`, `Print` (lines 135-175) -/

/-- The newline test of `Output` and `Outputb`: `len(s) == 0 || s[len(s)-1] != 10`. -/
def needsNewline (s : List UInt8) : Bool :=
  s.length == 0 || s.getLast? != some 10

/-- Lines 141-151 of `Output` (and 159-169 of `Outputb`): reset the scratch buffer,
render the header, append the payload and the newline, write once. -/
def emit (l : Alog) (now : Time) (s : List UInt8) : Option (Res × GoError) := do
  let buf : List UInt8 := []
  let buf ← formatHeader l buf now
  let buf := buf ++ s
  let buf := if needsNewline s then buf ++ [10] else buf
  let err := (l.out buf).2
  pure ({ l := { l with buf := buf }, writes := [buf], altCalls := [] }, err)

/-- The method `(l *Alog) Output(flagCat uint64, s string) error`, at time `now`. -/
def Output (l : Alog) (now : Time) (flagCat : Nat) (s : List UInt8) : Option (Res × GoError) :=
  if l.flagCat &&& flagCat ≠ 0 then
    if l.bAltOut then
      pure ({ l := l, writes := [], altCalls := [(flagCat, s)] }, l.altOutput flagCat s)
    else
      emit l now s
  else
    pure ({ l := l, writes := [], altCalls := [] }, none)

/-- The method `(l *Alog) Outputb(flagCat uint64, b []byte) error`, at time `now`. -/
def Outputb (l : Alog) (now : Time) (flagCat : Nat) (b : List UInt8) : Option (Res × GoError) :=
  if l.flagCat &&& flagCat ≠ 0 then
    emit l now b
  else
    pure ({ l := l, writes := [], altCalls := [] }, none)

/-- The method `(l *Alog) Print(flagCat uint64, s string)`: the error of `Output` is dropped. -/
def Print (l : Alog) (now : Time) (flagCat : Nat) (s : List UInt8) : Option Res :=
  (Output l now flagCat s).map Prod.fst

/-! ## Constructor and setters -/

/-- The type `Opt func(*Alog)`. -/
abbrev Opt := Alog → Alog

/-- The function `New(opts ...Opt)`; `stderr` is `os.Stderr`. -/
def New (stderr : Writer) (opts : List Opt) : Alog :=
  opts.foldl (fun l opt => opt l)
    { out := stderr, prefix_ := [], flagFormat := F_TIME ||| F_PREFIX, flagCat := C_ALL,
      altOutput := fun _ _ => none, buf := [], bAltOut := false }

/-- The method `SetAltOutput(fnAltOut)`; `none` is a `nil` argument. -/
def SetAltOutput (l : Alog) (fnAltOut : Option AltFn) : Alog :=
  match fnAltOut with
  | none => { l with bAltOut := false, altOutput := fun _ _ => none }
  | some f => { l with bAltOut := true, altOutput := f }

/-- The method `SetOutput(w)`. -/
def SetOutput (l : Alog) (w : Writer) : Alog := { l with out := w }

/-- The method `SetFormat(flagFmt ...FormatFlag)`. -/
def SetFormat (l : Alog) (flagFmt : List Nat) : Alog :=
  let flag : Nat :=
    match flagFmt with
    | [] => F_NONE
    | [v] => v
    | _ => flagFmt.foldl (fun flag v => flag ||| v) 0
  { l with flagFormat := flag }

/-- The method `SetFilter(category ...uint64)`. -/
def SetFilter (l : Alog) (category : List Nat) : Alog :=
  let flag : Nat :=
    match category with
    | [] => C_NONE
    | [v] => v
    | _ => category.foldl (fun flag v => flag ||| v) 0
  { l with flagCat := flag }

/-- The method `SetPrefix(prefix)`. -/
def SetPrefix (l : Alog) (p : List UInt8) : Alog := { l with prefix_ := p }

/-! ## Discard sink and writer adapters (lines 326-361) -/

/-- The method `(devNull) Write(p []byte) (int, error)`. -/
def devNull_Write (_p : List UInt8) : Int × GoError := (0, none)

/-- The variable `Discard io.Writer = devNull(0)`. -/
def Discard : Writer := devNull_Write

/-- The struct `LogWriter`, without the pointer to its logger. -/
structure LogWriter where
  flagCat : Nat

/-- The struct `LogWriterPrefix`, without the pointer to its logger. -/
structure LogWriterPrefix where
  flagCat : Nat
  prefix_ : List UInt8
  prefixSize : Int
  usePrefix : Bool

/-- The `io.Writer` value that `NewWriter` returns. -/
inductive LogIoWriter where
  | plain (dw : LogWriter)
  | withPrefix (dw : LogWriterPrefix)

/-- The method `(l *Alog) NewWriter(flag uint64, prefix string) io.Writer`. -/
def NewWriter (flag : Nat) (p : List UInt8) : LogIoWriter :=
  if p ≠ [] then
    .withPrefix { flagCat := flag, prefix_ := p, prefixSize := p.length, usePrefix := true }
  else
    .plain { flagCat := flag }

/-- What a `Write` on an adapter did (`res`, the effects of its `Outputb` call) and the
pair `(n, err)` it returned. -/
structure WriteRes where
  res : Res
  n : Int
  err : GoError

/-- The method `(dw *LogWriter) Write(p []byte) (n int, err error)` on logger `l`. -/
def LogWriter.Write (dw : LogWriter) (l : Alog) (now : Time) (p : List UInt8) : Option WriteRes := do
  let r ← Outputb l now dw.flagCat p
  pure { res := r.1, n := p.length, err := none }

/-- The method `(dw *LogWriterPrefix) Write(p []byte) (n int, err error)` on logger `l`. -/
def LogWriterPrefix.Write (dw : LogWriterPrefix) (l : Alog) (now : Time) (p : List UInt8) :
    Option WriteRes :=
  if dw.usePrefix then do
    let r ← Outputb l now dw.flagCat (dw.prefix_ ++ p)
    pure { res := r.1, n := p.length + dw.prefixSize, err := none }
  else do
    let r ← Outputb l now dw.flagCat p
    pure { res := r.1, n := p.length, err := none }

/-- Dynamic dispatch of `Write` on the value returned by `NewWriter`. -/
def LogIoWriter.Write (w : LogIoWriter) (l : Alog) (now : Time) (p : List UInt8) : Option WriteRes :=
  match w with
  | .plain dw => dw.Write l now p
  | .withPrefix dw => dw.Write l now p

/-! ## Decimal rendering, written out for comparison with `itoa` -/

/-- The ASCII byte of the decimal digit `d`. -/
def digit (d : Nat) : UInt8 := UInt8.ofNat (48 + d)

/-- The digits `itoa` emits for a natural number `n` and a width `w`, most significant
first: one digit per loop round, then the last one. -/
def render (n w : Nat) : List UInt8 :=
  if n ≥ 10 ∨ w > 1 then render (n / 10) (w - 1) ++ [digit (n % 10)] else [digit n]
termination_by n + w
decreasing_by omega

/-- The number `n` zero-padded to 2 decimal digits. -/
def pad2 (n : Nat) : List UInt8 := [digit (n / 10 % 10), digit (n % 10)]

/-- The number `n` zero-padded to 4 decimal digits. -/
def pad4 (n : Nat) : List UInt8 :=
  [digit (n / 1000 % 10), digit (n / 100 % 10), digit (n / 10 % 10), digit (n % 10)]

/-- The number `n` zero-padded to 6 decimal digits. -/
def pad6 (n : Nat) : List UInt8 :=
  [digit (n / 100000 % 10), digit (n / 10000 % 10), digit (n / 1000 % 10),
   digit (n / 100 % 10), digit (n / 10 % 10), digit (n % 10)]

/-- The newline the spec has `Output` add after the message `s`: the single byte 10 if `s` is
empty or its last byte is not 10, nothing otherwise. -/
def nl (s : List UInt8) : List UInt8 :=
  if s = [] ∨ s.getLast? ≠ some 10 then [10] else []

/-- The header `YYYY/MM/DD HH:MM:SS.ffffff ` of the spec for the fields `c`, the fraction
being the nanoseconds divided by 1000. -/
def stampMicro (c : Clock) : List UInt8 :=
  pad4 c.year.toNat ++ [47] ++ pad2 c.month.toNat ++ [47] ++ pad2 c.day.toNat ++ [32] ++
  pad2 c.hour.toNat ++ [58] ++ pad2 c.min.toNat ++ [58] ++ pad2 c.sec.toNat ++ [46] ++
  pad6 (c.nsec.toNat / 1000) ++ [32]

/-! ## Package-level default instance (lines 364-380) -/

/-- The variable `std`, as its initialiser builds it: `New` with one option, which calls
`SetFilter(C_ALL)`, `SetFormat()` and `SetOutput(os.Stderr)`; `stderr` is `os.Stderr`. -/
def std (stderr : Writer) : Alog :=
  New stderr [fun l => SetOutput (SetFormat (SetFilter l [C_ALL]) []) stderr]

/-- The package-level function `Print(s string)`, which is `std.Print(C_GLOBAL, s)`, on the
default instance in the state `l`. -/
def std_Print (l : Alog) (now : Time) (s : List UInt8) : Option Res :=
  Print l now C_GLOBAL s

/-! ## Decimal numerals, for comparison with what `itoa` appends -/

/-- The decimal digits of `n` as ASCII bytes, most significant first (none for 0). -/
def decimal (n : Nat) : List UInt8 := (Nat.digits 10 n).reverse.map digit

/-- The bytes `ds` left-padded with the byte `0` (48) to the length `len`. -/
def zeroPad (len : Nat) (ds : List UInt8) : List UInt8 :=
  List.replicate (len - ds.length) 48 ++ ds

/-- The number a run of ASCII digits reads as in base 10. -/
def readDecimal (ds : List UInt8) : Nat :=
  ds.foldl (fun acc b => 10 * acc + (b.toNat - 48)) 0

/-- The clock `HH:MM:SS` of the spec for the fields `c`, each zero-padded to 2 digits. -/
def stampClock (c : Clock) : List UInt8 :=
  pad2 c.hour.toNat ++ [58] ++ pad2 c.min.toNat ++ [58] ++ pad2 c.sec.toNat

/-- The fraction `.ffffff` of the spec for the fields `c`: a dot and the nanoseconds divided by
1000 with truncation, zero-padded to 6 digits. -/
def stampFraction (c : Clock) : List UInt8 :=
  [46] ++ pad6 (c.nsec.toNat / 1000)

/-! ## Concrete values used in the examples -/

/-- The bytes of a string literal whose characters are ASCII. -/
def bytes (s : String) : List UInt8 := s.toList.map (fun c => UInt8.ofNat c.toNat)

/-- The fields of 2021-03-04 05:06:07.000008999. -/
def exClock : Clock :=
  { year := 2021, month := 3, day := 4, hour := 5, min := 6, sec := 7, nsec := 8999,
    year_int := by decide, month_range := by decide, day_range := by decide,
    hour_range := by decide, min_range := by decide, sec_range := by decide,
    nsec_range := by decide }

/-- An instant whose location is UTC. -/
def exTime : Time := { loc := exClock, utc := exClock }

/-- A sink that accepts every write, as `bytes.Buffer` does. -/
def bufferSink : Writer := fun p => (p.length, none)

/-- A sink whose every write fails. -/
def failSink : Writer := fun _ => (0, some "sink failed")

/-- The logger of `TestNewALog`: `New()`, then `SetOutput(&buf)` and `SetFormat(0)`. -/
def exLogger : Alog := SetFormat (SetOutput (New bufferSink []) bufferSink) [0]

/-! ## Lemmas on `itoa` -/

theorem tdiv_ten_of_nonneg {i : Int} (h : 0 ≤ i) : Int.tdiv i 10 = i / 10 :=
  Int.tdiv_eq_ediv h (by decide)

theorem tdiv_ten_of_neg {i : Int} (h : i < 0) : Int.tdiv i 10 = -((-i) / 10) := by
  have h1 : Int.tdiv (-i) 10 = (-i) / 10 := Int.tdiv_eq_ediv (by omega) (by decide)
  have h2 : Int.tdiv (-i) 10 = -(Int.tdiv i 10) := Int.neg_tdiv i 10
  omega

theorem wrapInt_of_range {x : Int} (h1 : -(2 : Int) ^ 63 ≤ x) (h2 : x < 2 ^ 63) : wrapInt x = x := by
  unfold wrapInt
  omega

theorem drop_set_self {α : Type} (b : List α) (k : Nat) (d : α) (h : k < b.length) :
    (b.set k d).drop k = d :: b.drop (k + 1) := by
  induction b generalizing k with
  | nil => simp at h
  | cons x xs ih =>
    cases k with
    | zero => simp
    | succ k => simpa using ih k (by simpa using h)

/-- With enough room left in the array, `itoa` does not index out of range. -/
theorem itoaLoop_isSome (bp : Nat) : ∀ (b : List UInt8) (i wid : Int),
    bp < 20 → i < 10 ^ (bp + 1) → wid ≤ bp + 1 → -(2 : Int) ^ 63 + bp < wid →
    (itoaLoop bp b i wid).isSome = true := by
  induction bp with
  | zero =>
    intro b i wid _ hi hw _
    unfold itoaLoop
    have hc : ¬ (i ≥ 10 ∨ wid > 1) := by
      simp at hi hw
      omega
    simp [hc]
  | succ k ih =>
    intro b i wid hk hi hw hlo
    unfold itoaLoop
    by_cases hc : i ≥ 10 ∨ wid > 1
    · simp only [hc, if_true]
      apply ih
      · omega
      · rcases lt_or_le i 0 with hneg | hpos
        · rw [tdiv_ten_of_neg hneg]
          have : (0 : Int) < 10 ^ (k + 1) := by positivity
          omega
        · rw [tdiv_ten_of_nonneg hpos]
          have : (10 : Int) ^ (k + 1 + 1) = 10 ^ (k + 1) * 10 := by ring
          omega
      · rw [wrapInt_of_range (by push_cast at hlo ⊢; omega) (by push_cast at hw ⊢; omega)]
        push_cast at hw ⊢
        omega
      · rw [wrapInt_of_range (by push_cast at hlo ⊢; omega) (by push_cast at hw ⊢; omega)]
        push_cast at hlo ⊢
        omega
    · simp [hc]

theorem toByte_digit (d : Nat) (h : d < 10) : toByte (48 + (d : Int)) = digit d := by
  unfold toByte digit
  congr 1
  omega

/-- On a natural number that fits, the loop of `itoa` leaves `render` in front of the
untouched tail of the array. -/
theorem itoaLoop_nat (bp : Nat) : ∀ (b : List UInt8) (n : Nat) (wid : Int),
    bp < 20 → bp < b.length → n < 10 ^ (bp + 1) → wid ≤ bp + 1 → -(2 : Int) ^ 63 + bp < wid →
    itoaLoop bp b n wid = some (render n wid.toNat ++ b.drop (bp + 1)) := by
  induction bp with
  | zero =>
    intro b n wid _ hb hn hw _
    unfold itoaLoop
    have hc : ¬ ((n : Int) ≥ 10 ∨ wid > 1) := by
      simp at hn hw
      omega
    have hr : ¬ (n ≥ 10 ∨ wid.toNat > 1) := by
      simp at hn hw
      omega
    rw [if_neg hc, render, if_neg hr, drop_set_self b 0 _ hb, toByte_digit n (by simpa using hn)]
    simp
  | succ k ih =>
    intro b n wid hk hb hn hw hlo
    unfold itoaLoop
    by_cases hc : (n : Int) ≥ 10 ∨ wid > 1
    · have hr : n ≥ 10 ∨ wid.toNat > 1 := by omega
      rw [if_pos hc, render, if_pos hr]
      simp only
      have hq : Int.tdiv (n : Int) 10 = ((n / 10 : Nat) : Int) := by
        rw [tdiv_ten_of_nonneg (by omega)]
        omega
      have hd : (48 : Int) + n - Int.tdiv (n : Int) 10 * 10 = 48 + ((n % 10 : Nat) : Int) := by
        rw [hq]
        omega
      rw [hd, hq, toByte_digit _ (Nat.mod_lt _ (by decide)),
        wrapInt_of_range (by push_cast at hlo ⊢; omega) (by push_cast at hw ⊢; omega)]
      have h10 : (10 : Nat) ^ (k + 1 + 1) = 10 ^ (k + 1) * 10 := by ring
      rw [ih _ (n / 10) (wid - 1) (by omega) (by simpa using (by omega : k < b.length)) (by omega)
        (by push_cast at hw ⊢; omega) (by push_cast at hlo ⊢; omega)]
      have ht : (wid - 1).toNat = wid.toNat - 1 := by omega
      rw [ht, drop_set_self b (k + 1) _ hb]
      simp
    · have hr : ¬ (n ≥ 10 ∨ wid.toNat > 1) := by omega
      rw [if_neg hc, render, if_neg hr, drop_set_self b (k + 1) _ hb,
        toByte_digit n (by omega)]
      simp

/-- On a natural number below `10^20` and a width of at most 20, `itoa` appends `render`. -/
theorem itoa_nat (buf : List UInt8) (n : Nat) (wid : Int) (hn : n < 10 ^ 20) (hw : wid ≤ 20)
    (hlo : -(2 : Int) ^ 63 + 19 < wid) :
    itoa buf n wid = some (buf ++ render n wid.toNat) := by
  unfold itoa
  rw [itoaLoop_nat 19 _ n wid (by decide) (by simp) hn (by simpa using hw) (by simpa using hlo)]
  simp

/-- On every Go `int` and a width of at most 20 (and not within 19 of the least `int`),
`itoa` returns, and what it returns extends `buf`. -/
theorem itoa_eq_some (buf : List UInt8) (i wid : Int) (hi : i < 2 ^ 63) (hw : wid ≤ 20)
    (hlo : -(2 : Int) ^ 63 + 19 < wid) :
    ∃ ds, itoa buf i wid = some (buf ++ ds) := by
  have h := itoaLoop_isSome 19 (List.replicate 20 0) i wid (by decide)
    (by norm_num at hi ⊢; omega) (by simpa using hw) (by simpa using hlo)
  obtain ⟨ds, hds⟩ := Option.isSome_iff_exists.mp h
  exact ⟨ds, by unfold itoa; rw [hds]; rfl⟩

theorem render_two (n : Nat) (h : n < 100) : render n 2 = pad2 n := by
  have h1 : ¬ (n / 10 ≥ 10 ∨ 2 - 1 > 1) := by omega
  have h2 : n / 10 % 10 = n / 10 := by omega
  rw [render, if_pos (by omega), render, if_neg h1, pad2, h2]
  rfl

theorem render_four (n : Nat) (h : n < 10000) : render n 4 = pad4 n := by
  have h1 : ¬ (n / 10 / 10 / 10 ≥ 10 ∨ 4 - 1 - 1 - 1 > 1) := by omega
  have e1 : n / 10 / 10 / 10 = n / 1000 % 10 := by omega
  have e2 : n / 10 / 10 % 10 = n / 100 % 10 := by omega
  rw [render, if_pos (by omega), render, if_pos (by omega), render, if_pos (by omega),
    render, if_neg h1, pad4, e1, e2]
  rfl

theorem render_six (n : Nat) (h : n < 1000000) : render n 6 = pad6 n := by
  have h1 : ¬ (n / 10 / 10 / 10 / 10 / 10 ≥ 10 ∨ 6 - 1 - 1 - 1 - 1 - 1 > 1) := by omega
  have e1 : n / 10 / 10 / 10 / 10 / 10 = n / 100000 % 10 := by omega
  have e2 : n / 10 / 10 / 10 / 10 % 10 = n / 10000 % 10 := by omega
  have e3 : n / 10 / 10 / 10 % 10 = n / 1000 % 10 := by omega
  have e4 : n / 10 / 10 % 10 = n / 100 % 10 := by omega
  rw [render, if_pos (by omega), render, if_pos (by omega), render, if_pos (by omega),
    render, if_pos (by omega), render, if_pos (by omega), render, if_neg h1, pad6, e1, e2, e3, e4]
  rfl

/-- The 2-digit fields: `itoa(buf, n, 2)` appends `pad2` for `0 ≤ n ≤ 99`. -/
theorem itoa_two (buf : List UInt8) (i : Int) (h0 : 0 ≤ i) (h1 : i ≤ 99) :
    itoa buf i 2 = some (buf ++ pad2 i.toNat) := by
  obtain ⟨n, rfl⟩ := Int.eq_ofNat_of_zero_le h0
  rw [itoa_nat buf n 2 (by omega) (by decide) (by decide), Int.toNat_ofNat,
    show (2 : Int).toNat = 2 from rfl, render_two _ (by omega)]

theorem itoa_four (buf : List UInt8) (i : Int) (h0 : 0 ≤ i) (h1 : i ≤ 9999) :
    itoa buf i 4 = some (buf ++ pad4 i.toNat) := by
  obtain ⟨n, rfl⟩ := Int.eq_ofNat_of_zero_le h0
  rw [itoa_nat buf n 4 (by omega) (by decide) (by decide), Int.toNat_ofNat,
    show (4 : Int).toNat = 4 from rfl, render_four _ (by omega)]

theorem itoa_six (buf : List UInt8) (i : Int) (h0 : 0 ≤ i) (h1 : i ≤ 999999) :
    itoa buf i 6 = some (buf ++ pad6 i.toNat) := by
  obtain ⟨n, rfl⟩ := Int.eq_ofNat_of_zero_le h0
  rw [itoa_nat buf n 6 (by omega) (by decide) (by decide), Int.toNat_ofNat,
    show (6 : Int).toNat = 6 from rfl, render_six _ (by omega)]

/-! ## Lemmas on `formatHeader` -/

theorem formatDate_eq_some (f : Nat) (buf : List UInt8) (t : Time) :
    ∃ ds, formatDate f buf t = some (buf ++ ds) := by
  unfold formatDate
  split
  · obtain ⟨a, ha⟩ := itoa_eq_some buf t.loc.year 4 t.loc.year_int.2 (by decide) (by decide)
    have hm := itoa_two (buf ++ a ++ [47]) t.loc.month (by have := t.loc.month_range; omega)
      (by have := t.loc.month_range; omega)
    have hd := itoa_two (buf ++ a ++ [47] ++ pad2 t.loc.month.toNat ++ [47]) t.loc.day
      (by have := t.loc.day_range; omega) (by have := t.loc.day_range; omega)
    refine ⟨a ++ [47] ++ pad2 t.loc.month.toNat ++ [47] ++ pad2 t.loc.day.toNat ++ [32], ?_⟩
    rw [ha]
    simp only [Option.bind_eq_bind, Option.some_bind]
    rw [hm]
    simp only [Option.bind_eq_bind, Option.some_bind]
    rw [hd]
    simp
  · exact ⟨[], by simp⟩

theorem nsec_micro (c : Clock) :
    Int.tdiv c.nsec 1000 = c.nsec / 1000 ∧ 0 ≤ c.nsec / 1000 ∧ c.nsec / 1000 ≤ 999999 := by
  have h := c.nsec_range
  refine ⟨Int.tdiv_eq_ediv h.1 (by decide), ?_, ?_⟩ <;> omega

/-- The clock block, written out. -/
theorem formatClock_eq (f : Nat) (buf : List UInt8) (t : Time) :
    formatClock f buf t =
      some (buf ++
        (if f &&& (F_TIME ||| F_MICROSECONDS) ≠ 0 then
          pad2 t.loc.hour.toNat ++ [58] ++ pad2 t.loc.min.toNat ++ [58] ++ pad2 t.loc.sec.toNat ++
          (if f &&& F_MICROSECONDS ≠ 0 then [46] ++ pad6 (t.loc.nsec / 1000).toNat else []) ++ [32]
        else [])) := by
  unfold formatClock
  have hh := t.loc.hour_range
  have hm := t.loc.min_range
  have hs := t.loc.sec_range
  have hn := nsec_micro t.loc
  split
  · rw [itoa_two buf _ hh.1 (by omega)]
    simp only [Option.bind_eq_bind, Option.some_bind]
    rw [itoa_two _ _ hm.1 (by omega)]
    simp only [Option.bind_eq_bind, Option.some_bind]
    rw [itoa_two _ _ hs.1 (by omega)]
    simp only [Option.bind_eq_bind, Option.some_bind]
    split
    · rw [hn.1, itoa_six _ _ hn.2.1 hn.2.2]
      simp
    · simp
  · simp

/-- The function `formatHeader` returns for every logger, buffer and time. -/
theorem formatHeader_eq_some (l : Alog) (buf : List UInt8) (t : Time) :
    ∃ h, formatHeader l buf t = some (buf ++ h) := by
  unfold formatHeader
  by_cases h1 : l.flagFormat &&& (F_DATE ||| F_TIME ||| F_MICROSECONDS) ≠ 0
  · obtain ⟨a, ha⟩ := formatDate_eq_some l.flagFormat buf
      (if l.flagFormat &&& F_UTC ≠ 0 then t.UTC else t)
    rw [if_pos h1]
    simp only [Option.bind_eq_bind, ha, Option.some_bind, formatClock_eq]
    split
    · exact ⟨_, by simp; rfl⟩
    · exact ⟨_, by simp; rfl⟩
  · rw [if_neg h1]
    split
    · exact ⟨l.prefix_, by simp⟩
    · exact ⟨[], by simp⟩

/-! ## Lemmas on `Output` -/

theorem needsNewline_eq (s : List UInt8) :
    (if needsNewline s = true then [10] else []) = nl s := by
  unfold needsNewline nl
  cases s with
  | nil => simp
  | cons x xs => simp

/-- The formatted path writes the header, the payload and the newline in one call. -/
theorem emit_eq (l : Alog) (now : Time) (s h : List UInt8)
    (hh : formatHeader l [] now = some h) :
    emit l now s =
      some ({ l := { l with buf := h ++ s ++ nl s }, writes := [h ++ s ++ nl s], altCalls := [] },
        (l.out (h ++ s ++ nl s)).2) := by
  unfold emit
  dsimp only
  rw [hh, ← needsNewline_eq]
  by_cases hn : needsNewline s = true <;> simp [hn]

/-- Without an override, `Output` is the filter test followed by the formatted path. -/
theorem Output_eq (l : Alog) (now : Time) (C : Nat) (s h : List UInt8) (ha : l.bAltOut = false)
    (hh : formatHeader l [] now = some h) :
    Output l now C s =
      some (if l.flagCat &&& C ≠ 0 then
          ({ l := { l with buf := h ++ s ++ nl s }, writes := [h ++ s ++ nl s], altCalls := [] },
            (l.out (h ++ s ++ nl s)).2)
        else ({ l := l, writes := [], altCalls := [] }, none)) := by
  unfold Output
  by_cases hc : l.flagCat &&& C ≠ 0
  · rw [if_pos hc, if_pos hc, if_neg (by simp [ha] : ¬ (l.bAltOut = true)), emit_eq l now s h hh]
  · rw [if_neg hc, if_neg hc]
    rfl

theorem formatHeader_none (l : Alog) (buf : List UInt8) (t : Time) (hf : l.flagFormat = F_NONE) :
    formatHeader l buf t = some buf := by
  unfold formatHeader
  simp [hf, F_NONE]

theorem nl_ne (s : List UInt8) : s ++ nl s ≠ [] := by
  unfold nl
  cases s with
  | nil => simp
  | cons x xs => simp

theorem nl_getLast (s : List UInt8) : (s ++ nl s).getLast? = some 10 := by
  unfold nl
  by_cases h : s = [] ∨ s.getLast? ≠ some 10
  · simp [h]
  · rw [if_neg h]
    simp only [not_or, ne_eq, not_not] at h
    simpa using h.2

/-! ## The claims -/

/-- C1: with no override installed, `Output(C, s)` returns and performs a write on the sink
if and only if `filter & C != 0`: category 0 never writes, the filter `C_ALL` writes for every
nonzero 64-bit category, and under the filter `C_INFO` the category `C_INFO|C_NET` writes while
`C_NET` alone does not. -/
theorem C1_output_writes_iff_filter_matches (l : Alog) (now : Time) (C : Nat) (s : List UInt8)
    (ha : l.bAltOut = false) :
    ∃ r, Output l now C s = some r ∧
      (r.1.writes ≠ [] ↔ l.flagCat &&& C ≠ 0) ∧
      (C = 0 → r.1.writes = []) ∧
      (l.flagCat = C_ALL → C ≠ 0 → C < 2 ^ 64 → r.1.writes ≠ []) ∧
      (l.flagCat = C_INFO → C = C_INFO ||| C_NET → r.1.writes ≠ []) ∧
      (l.flagCat = C_INFO → C = C_NET → r.1.writes = []) := by
  obtain ⟨h, hh⟩ := formatHeader_eq_some l [] now
  have hr := Output_eq l now C s _ ha hh
  have hi : ((if l.flagCat &&& C ≠ 0 then
          (({ l := { l with buf := [] ++ h ++ s ++ nl s }, writes := [[] ++ h ++ s ++ nl s],
              altCalls := [] } : Res), (l.out ([] ++ h ++ s ++ nl s)).2)
        else ({ l := l, writes := [], altCalls := [] }, none)).1.writes ≠ [] ↔
      l.flagCat &&& C ≠ 0) := by
    by_cases hc : l.flagCat &&& C ≠ 0
    · rw [if_pos hc]
      simp [hc]
    · rw [if_neg hc]
      simp [hc]
  refine ⟨_, hr, hi, ?_, ?_, ?_, ?_⟩
  · intro h0
    have : ¬ (l.flagCat &&& C ≠ 0) := by simp [h0]
    by_contra hne
    exact this (hi.mp hne)
  · intro hall hC hlt
    apply hi.mpr
    have : l.flagCat &&& C = C := by
      rw [hall, Nat.land_comm]
      show C &&& 2 ^ 64 - 1 = C
      rw [Nat.and_pow_two_sub_one_eq_mod]
      exact Nat.mod_eq_of_lt hlt
    rw [this]
    exact hC
  · intro hF hC
    apply hi.mpr
    rw [hF, hC]
    decide
  · intro hF hC
    have : ¬ (l.flagCat &&& C ≠ 0) := by
      rw [hF, hC]
      decide
    by_contra hne
    exact this (hi.mp hne)

/-- C1, at the logger of `TestNewALog` with the filter `C_INFO` and the category `C_INFO|C_NET`. -/
theorem C1_witness :
    (SetFilter exLogger [C_INFO]).bAltOut = false ∧
    ∃ r, Output (SetFilter exLogger [C_INFO]) exTime (C_INFO ||| C_NET) (bytes "test3") = some r ∧
      (r.1.writes ≠ [] ↔ (SetFilter exLogger [C_INFO]).flagCat &&& (C_INFO ||| C_NET) ≠ 0) ∧
      (C_INFO ||| C_NET = 0 → r.1.writes = []) ∧
      ((SetFilter exLogger [C_INFO]).flagCat = C_ALL → C_INFO ||| C_NET ≠ 0 →
        C_INFO ||| C_NET < 2 ^ 64 → r.1.writes ≠ []) ∧
      ((SetFilter exLogger [C_INFO]).flagCat = C_INFO → C_INFO ||| C_NET = C_INFO ||| C_NET →
        r.1.writes ≠ []) ∧
      ((SetFilter exLogger [C_INFO]).flagCat = C_INFO → C_INFO ||| C_NET = C_NET →
        r.1.writes = []) :=
  ⟨rfl, C1_output_writes_iff_filter_matches (SetFilter exLogger [C_INFO]) exTime
    (C_INFO ||| C_NET) (bytes "test3") rfl⟩

/-- C2: with format `F_NONE`, a matching category and no override, `Output(C, s)` writes exactly
`s` when `s` ends in a newline and exactly `s` followed by one newline otherwise (also for the
empty `s`), in a single write, for every prefix and time; `Print(C, s)` does the same. -/
theorem C2_bare_payload_when_format_none (l : Alog) (now : Time) (C : Nat) (s : List UInt8)
    (hf : l.flagFormat = F_NONE) (hc : l.flagCat &&& C ≠ 0) (ha : l.bAltOut = false) :
    ∃ r, Output l now C s = some r ∧ Print l now C s = some r.1 ∧
      r.1.writes = [if s.getLast? = some 10 then s else s ++ [10]] := by
  have hh := formatHeader_none l [] now hf
  have hr := Output_eq l now C s _ ha hh
  rw [if_pos hc] at hr
  refine ⟨_, hr, ?_, ?_⟩
  · unfold Print
    rw [hr]
    rfl
  · show [[] ++ s ++ nl s] = _
    unfold nl
    cases s with
    | nil => simp
    | cons x xs =>
      by_cases h : (x :: xs).getLast? = some 10 <;> simp [h]

/-- C2, at `Print(C_GLOBAL, "test1")` on the logger of the tests: the sink receives `test1`
and a newline. -/
theorem C2_witness :
    exLogger.flagFormat = F_NONE ∧ exLogger.flagCat &&& C_GLOBAL ≠ 0 ∧ exLogger.bAltOut = false ∧
    ∃ r, Output exLogger exTime C_GLOBAL (bytes "test1") = some r ∧
      Print exLogger exTime C_GLOBAL (bytes "test1") = some r.1 ∧
      r.1.writes = [if (bytes "test1").getLast? = some 10 then bytes "test1"
        else bytes "test1" ++ [10]] :=
  ⟨rfl, by decide, rfl,
    C2_bare_payload_when_format_none exLogger exTime C_GLOBAL (bytes "test1") rfl (by decide) rfl⟩

/-- The date block for a year of at most four digits, written out. -/
theorem formatDate_eq (f : Nat) (buf : List UInt8) (t : Time) (hf : f &&& F_DATE ≠ 0)
    (hy0 : 0 ≤ t.loc.year) (hy1 : t.loc.year ≤ 9999) :
    formatDate f buf t =
      some (buf ++ (pad4 t.loc.year.toNat ++ [47] ++ pad2 t.loc.month.toNat ++ [47] ++
        pad2 t.loc.day.toNat ++ [32])) := by
  unfold formatDate
  have hm := t.loc.month_range
  have hd := t.loc.day_range
  rw [if_pos hf, itoa_four buf _ hy0 hy1]
  simp only [Option.bind_eq_bind, Option.some_bind]
  rw [itoa_two _ _ (by omega) (by omega)]
  simp only [Option.bind_eq_bind, Option.some_bind]
  rw [itoa_two _ _ (by omega) (by omega)]
  simp

/-- C3: for a year between 0 and 9999 and the flags `F_DATE|F_TIME|F_MICROSECONDS|F_PREFIX`,
`formatHeader` appends exactly `YYYY/MM/DD HH:MM:SS.ffffff`, one space and the prefix, each field
zero-padded and the fraction being the nanoseconds divided by 1000; the header is
`27 + len(prefix)` bytes long and `Output` writes the payload right after it. -/
theorem C3_header_date_time_microseconds (l : Alog) (buf : List UInt8) (t : Time)
    (hf : l.flagFormat = F_DATE ||| F_TIME ||| F_MICROSECONDS ||| F_PREFIX)
    (hy0 : 0 ≤ t.loc.year) (hy1 : t.loc.year ≤ 9999) :
    formatHeader l buf t = some (buf ++ (stampMicro t.loc ++ l.prefix_)) ∧
    (stampMicro t.loc ++ l.prefix_).length = 27 + l.prefix_.length ∧
    ∀ (C : Nat) (s : List UInt8), l.flagCat &&& C ≠ 0 → l.bAltOut = false →
      ∃ r, Output l t C s = some r ∧
        r.1.writes = [stampMicro t.loc ++ l.prefix_ ++ s ++ nl s] := by
  have h1 : l.flagFormat &&& (F_DATE ||| F_TIME ||| F_MICROSECONDS) ≠ 0 := by rw [hf]; decide
  have h2 : ¬ (l.flagFormat &&& F_UTC ≠ 0) := by rw [hf]; decide
  have h3 : l.flagFormat &&& F_DATE ≠ 0 := by rw [hf]; decide
  have h4 : l.flagFormat &&& (F_TIME ||| F_MICROSECONDS) ≠ 0 := by rw [hf]; decide
  have h5 : l.flagFormat &&& F_MICROSECONDS ≠ 0 := by rw [hf]; decide
  have h6 : l.flagFormat &&& F_PREFIX ≠ 0 := by rw [hf]; decide
  have hn : (t.loc.nsec / 1000).toNat = t.loc.nsec.toNat / 1000 := by
    have := t.loc.nsec_range
    omega
  have hfh : ∀ b : List UInt8, formatHeader l b t = some (b ++ (stampMicro t.loc ++ l.prefix_)) := by
    intro b
    unfold formatHeader
    rw [if_pos h1, if_neg h2]
    simp only [Option.bind_eq_bind, if_pos h6]
    rw [formatDate_eq _ _ _ h3 hy0 hy1]
    simp only [Option.some_bind]
    rw [formatClock_eq, if_pos h4, if_pos h5, hn]
    simp [stampMicro]
  refine ⟨hfh buf, ?_, ?_⟩
  · simp [stampMicro, pad2, pad4, pad6]
    omega
  · intro C s hc ha
    have hr := Output_eq l t C s _ ha (hfh [])
    rw [if_pos hc] at hr
    exact ⟨_, hr, by simp⟩

/-- C3, at 2021-03-04 05:06:07.000008999 with the prefix `X`. -/
theorem C3_witness :
    (SetPrefix (SetFormat exLogger [F_DATE, F_TIME, F_MICROSECONDS, F_PREFIX]) (bytes "X")).flagFormat
        = F_DATE ||| F_TIME ||| F_MICROSECONDS ||| F_PREFIX ∧
    0 ≤ exTime.loc.year ∧ exTime.loc.year ≤ 9999 ∧
    formatHeader (SetPrefix (SetFormat exLogger [F_DATE, F_TIME, F_MICROSECONDS, F_PREFIX])
        (bytes "X")) [] exTime = some (bytes "2021/03/04 05:06:07.000008 X") :=
  ⟨rfl, by decide, by decide,
    (C3_header_date_time_microseconds
      (SetPrefix (SetFormat exLogger [F_DATE, F_TIME, F_MICROSECONDS, F_PREFIX]) (bytes "X"))
      [] exTime rfl (by decide) (by decide)).1⟩

/-- C4: for every format, prefix and time, a matching category and no override, the one write
of `Output(C, s)` is `header ++ s ++ nl`, with `header` what `formatHeader` renders and `nl` a
newline exactly when `s` is empty or does not end in one; the written bytes are not empty, end
in a newline, and a message ending in a newline gets no second one. -/
theorem C4_output_is_header_payload_newline (l : Alog) (now : Time) (C : Nat) (s : List UInt8)
    (hc : l.flagCat &&& C ≠ 0) (ha : l.bAltOut = false) :
    ∃ header w r, formatHeader l [] now = some header ∧ Output l now C s = some r ∧
      r.1.writes = [w] ∧
      w = header ++ s ++ (if s = [] ∨ s.getLast? ≠ some 10 then [10] else []) ∧
      w ≠ [] ∧ w.getLast? = some 10 ∧ (s.getLast? = some 10 → w = header ++ s) := by
  obtain ⟨h, hh⟩ := formatHeader_eq_some l [] now
  have hr := Output_eq l now C s _ ha hh
  rw [if_pos hc] at hr
  refine ⟨_, _, _, hh, hr, rfl, rfl, ?_, ?_, ?_⟩
  · rw [List.append_assoc]
    intro h0
    exact nl_ne s (List.append_eq_nil.mp h0).2
  · rw [List.append_assoc, List.getLast?_append, nl_getLast s]
    rfl
  · intro hs
    have : nl s = [] := by
      unfold nl
      rw [if_neg]
      intro hor
      rcases hor with h0 | h0
      · rw [h0] at hs
        simp at hs
      · exact h0 hs
    rw [this]
    simp

/-- C4, at the message `test2` under the default format of `New()`. -/
theorem C4_witness :
    (New bufferSink []).flagCat &&& C_INFO ≠ 0 ∧ (New bufferSink []).bAltOut = false ∧
    ∃ header w r, formatHeader (New bufferSink []) [] exTime = some header ∧
      Output (New bufferSink []) exTime C_INFO (bytes "test2") = some r ∧
      r.1.writes = [w] ∧
      w = header ++ bytes "test2" ++
        (if bytes "test2" = [] ∨ (bytes "test2").getLast? ≠ some 10 then [10] else []) ∧
      w ≠ [] ∧ w.getLast? = some 10 ∧
      ((bytes "test2").getLast? = some 10 → w = header ++ bytes "test2") :=
  ⟨by decide, rfl,
    C4_output_is_header_payload_newline (New bufferSink []) exTime C_INFO (bytes "test2")
      (by decide) rfl⟩

/-- The byte entry point is the filter test followed by the formatted path. -/
theorem Outputb_eq (l : Alog) (now : Time) (C : Nat) (b h : List UInt8)
    (hh : formatHeader l [] now = some h) :
    Outputb l now C b =
      some (if l.flagCat &&& C ≠ 0 then
          ({ l := { l with buf := h ++ b ++ nl b }, writes := [h ++ b ++ nl b], altCalls := [] },
            (l.out (h ++ b ++ nl b)).2)
        else ({ l := l, writes := [], altCalls := [] }, none)) := by
  unfold Outputb
  by_cases hc : l.flagCat &&& C ≠ 0
  · rw [if_pos hc, if_pos hc, emit_eq l now b h hh]
  · rw [if_neg hc, if_neg hc]
    rfl

/-- C5: after `SetAltOutput(f)` with a non-nil `f`, `Output(C, s)` on a matching category calls
`f` once with `(C, s)` and returns its result, writes nothing and leaves the logger (scratch
buffer included) as it was; on a category the filter rejects, `f` is not called, nothing is
written and the result is nil. -/
theorem C5_override_replaces_formatting (l : Alog) (f : AltFn) (now : Time) (C : Nat)
    (s : List UInt8) :
    ((SetAltOutput l (some f)).flagCat &&& C ≠ 0 →
      Output (SetAltOutput l (some f)) now C s =
        some ({ l := SetAltOutput l (some f), writes := [], altCalls := [(C, s)] }, f C s)) ∧
    ((SetAltOutput l (some f)).flagCat &&& C = 0 →
      Output (SetAltOutput l (some f)) now C s =
        some ({ l := SetAltOutput l (some f), writes := [], altCalls := [] }, none)) ∧
    (SetAltOutput l (some f)).buf = l.buf ∧ (SetAltOutput l (some f)).flagCat = l.flagCat := by
  refine ⟨?_, ?_, rfl, rfl⟩
  · intro hc
    unfold Output
    rw [if_pos hc]
    rfl
  · intro hc
    unfold Output
    rw [if_neg (by simp [hc])]
    rfl

/-- C5, at an override that always fails, on the logger of the tests. -/
theorem C5_witness :
    ((SetAltOutput exLogger (some (fun _ _ => some "alt"))).flagCat &&& C_INFO ≠ 0 →
      Output (SetAltOutput exLogger (some (fun _ _ => some "alt"))) exTime C_INFO (bytes "m") =
        some ({ l := SetAltOutput exLogger (some (fun _ _ => some "alt")), writes := [],
                altCalls := [(C_INFO, bytes "m")] }, some "alt")) ∧
    (SetAltOutput exLogger (some (fun _ _ => some "alt"))).flagCat &&& C_INFO ≠ 0 :=
  ⟨(C5_override_replaces_formatting exLogger (fun _ _ => some "alt") exTime C_INFO (bytes "m")).1,
    by decide⟩

/-- C6: on every logger state, with or without an override, `Outputb(C, b)` returns, never
invokes the override, and writes the same bytes, leaves the same scratch buffer and returns the
same error as `Output(C, string(b))` on the same state with the override removed. -/
theorem C6_outputb_is_output_without_override (l : Alog) (now : Time) (C : Nat)
    (b : List UInt8) :
    ∃ r r', Outputb l now C b = some r ∧ Output (SetAltOutput l none) now C b = some r' ∧
      r.1.writes = r'.1.writes ∧ r.1.l.buf = r'.1.l.buf ∧ r.2 = r'.2 ∧ r.1.altCalls = [] := by
  obtain ⟨h, hh⟩ := formatHeader_eq_some l [] now
  have hh' : formatHeader (SetAltOutput l none) [] now = some ([] ++ h) := hh
  have hr := Outputb_eq l now C b _ hh
  have hr' := Output_eq (SetAltOutput l none) now C b _ rfl hh'
  have hf : (SetAltOutput l none).flagCat = l.flagCat := rfl
  rw [hf] at hr'
  refine ⟨_, _, hr, hr', ?_⟩
  by_cases hc : l.flagCat &&& C ≠ 0
  · rw [if_pos hc, if_pos hc]
    exact ⟨rfl, rfl, rfl, rfl⟩
  · rw [if_neg hc, if_neg hc]
    exact ⟨rfl, rfl, rfl, rfl⟩

/-- C7: with no override, `Output(C, s)` on a matching category makes exactly one `Write` call
and returns the error of that call; on a rejected category it makes none and returns nil,
whatever the sink would answer. -/
theorem C7_sink_error_returned_verbatim (l : Alog) (now : Time) (C : Nat) (s : List UInt8)
    (ha : l.bAltOut = false) :
    ∃ r, Output l now C s = some r ∧
      (l.flagCat &&& C ≠ 0 → ∃ w, r.1.writes = [w] ∧ r.2 = (l.out w).2) ∧
      (l.flagCat &&& C = 0 → r.1.writes = [] ∧ r.2 = none) := by
  obtain ⟨h, hh⟩ := formatHeader_eq_some l [] now
  have hr := Output_eq l now C s _ ha hh
  refine ⟨_, hr, ?_, ?_⟩
  · intro hc
    rw [if_pos hc]
    exact ⟨_, rfl, rfl⟩
  · intro hc
    rw [if_neg (by simp [hc])]
    exact ⟨rfl, rfl⟩

/-- C7, at a sink whose every write fails: the error comes back on a matching category. -/
theorem C7_witness :
    (SetOutput exLogger failSink).bAltOut = false ∧
    ∃ r, Output (SetOutput exLogger failSink) exTime C_INFO (bytes "m") = some r ∧
      ((SetOutput exLogger failSink).flagCat &&& C_INFO ≠ 0 →
        ∃ w, r.1.writes = [w] ∧ r.2 = ((SetOutput exLogger failSink).out w).2) ∧
      ((SetOutput exLogger failSink).flagCat &&& C_INFO = 0 → r.1.writes = [] ∧ r.2 = none) :=
  ⟨rfl, C7_sink_error_returned_verbatim (SetOutput exLogger failSink) exTime C_INFO (bytes "m") rfl⟩

theorem foldl_or_singleton (v : Nat) : List.foldl (fun flag v => flag ||| v) 0 [v] = v := by
  simp

/-- C8: `SetFilter` sets the filter, and `SetFormat` the format, to the bitwise OR of all the
arguments whatever the value before; without arguments that is `C_NONE`, respectively `F_NONE`,
so after `SetFilter()` every `Output` is suppressed and after `SetFormat()` only the bare payload
(with its newline) is written. -/
theorem C8_setters_or_their_arguments (l : Alog) (cs fs : List Nat) :
    (SetFilter l cs).flagCat = cs.foldl (fun flag v => flag ||| v) 0 ∧
    (SetFormat l fs).flagFormat = fs.foldl (fun flag v => flag ||| v) 0 ∧
    (SetFilter l []).flagCat = C_NONE ∧ (SetFormat l []).flagFormat = F_NONE ∧
    (∀ (now : Time) (C : Nat) (s : List UInt8),
      Output (SetFilter l []) now C s =
        some ({ l := SetFilter l [], writes := [], altCalls := [] }, none)) ∧
    (∀ (now : Time) (C : Nat) (s : List UInt8), l.bAltOut = false → l.flagCat &&& C ≠ 0 →
      ∃ r, Output (SetFormat l []) now C s = some r ∧ r.1.writes = [s ++ nl s]) := by
  refine ⟨?_, ?_, rfl, rfl, ?_, ?_⟩
  · unfold SetFilter
    match cs with
    | [] => rfl
    | [v] => exact (foldl_or_singleton v).symm
    | _ :: _ :: _ => rfl
  · unfold SetFormat
    match fs with
    | [] => rfl
    | [v] => exact (foldl_or_singleton v).symm
    | _ :: _ :: _ => rfl
  · intro now C s
    unfold Output
    rw [if_neg]
    · rfl
    · show ¬ (C_NONE &&& C ≠ 0)
      simp [C_NONE]
  · intro now C s ha hc
    have hh := formatHeader_none (SetFormat l []) [] now rfl
    have hr := Output_eq (SetFormat l []) now C s _ ha hh
    have hc' : (SetFormat l []).flagCat &&& C ≠ 0 := hc
    rw [if_pos hc'] at hr
    exact ⟨_, hr, rfl⟩

/-- C8, at three filter bits and two format bits set on the logger of the tests. -/
theorem C8_witness :
    (SetFilter exLogger [C_INFO, C_IO, C_NET]).flagCat = C_INFO ||| C_IO ||| C_NET ∧
    (SetFormat exLogger [F_DATE, F_TIME]).flagFormat = F_DATE ||| F_TIME ∧
    (SetFilter exLogger []).flagCat = 0 ∧ (SetFormat (New bufferSink []) []).flagFormat = 0 :=
  ⟨(C8_setters_or_their_arguments exLogger [C_INFO, C_IO, C_NET] [F_DATE, F_TIME]).1,
   (C8_setters_or_their_arguments exLogger [C_INFO, C_IO, C_NET] [F_DATE, F_TIME]).2.1,
   (C8_setters_or_their_arguments exLogger [] []).2.2.1,
   (C8_setters_or_their_arguments (New bufferSink []) [] []).2.2.2.1⟩

/-- C9 as stated fails: with the non-empty prefix consisting of one newline and the empty
payload (which does not end in a newline), on the logger of the tests and the matching category
`C_IO`, the sink receives the prefix alone and not the prefix followed by a newline. -/
theorem C9_counterexample_empty_payload_newline_prefix :
    ([10] : List UInt8) ≠ [] ∧ exLogger.flagFormat = F_NONE ∧ exLogger.flagCat &&& C_IO ≠ 0 ∧
    ([] : List UInt8).getLast? ≠ some 10 ∧
    ((NewWriter C_IO [10]).Write exLogger exTime []).map (fun r => r.res.writes) = some [[10]] ∧
    ([[10]] : List (List UInt8)) ≠ [[10] ++ [] ++ [10]] := by
  refine ⟨by decide, rfl, by decide, by decide, rfl, by decide⟩

/-- C9, amended: for a non-empty prefix `Q`, a matching category and format `F_NONE`, `Write(P)`
on the writer of `NewWriter(C, Q)` makes the sink receive `Q ++ P` followed by a newline when
`Q ++ P` does not end in one and `Q ++ P` when it does, which for a non-empty `P` is decided by
the last byte of `P`; `Write` returns `len(P) + len(Q)` and a nil error. -/
theorem C9_prefixed_writer_output (l : Alog) (now : Time) (C : Nat) (Q P : List UInt8)
    (hQ : Q ≠ []) (hf : l.flagFormat = F_NONE) (hc : l.flagCat &&& C ≠ 0) :
    ∃ r, (NewWriter C Q).Write l now P = some r ∧
      r.res.writes = [if (Q ++ P).getLast? = some 10 then Q ++ P else Q ++ P ++ [10]] ∧
      r.n = P.length + Q.length ∧ r.err = none ∧
      (P ≠ [] → r.res.writes = [if P.getLast? = some 10 then Q ++ P else Q ++ P ++ [10]]) := by
  have hh := formatHeader_none l [] now hf
  have hr := Outputb_eq l now C (Q ++ P) _ hh
  rw [if_pos hc] at hr
  have hw : (NewWriter C Q).Write l now P =
      some { res := { l := { l with buf := [] ++ (Q ++ P) ++ nl (Q ++ P) },
                      writes := [[] ++ (Q ++ P) ++ nl (Q ++ P)], altCalls := [] },
             n := P.length + Q.length, err := none } := by
    unfold NewWriter
    rw [if_pos hQ]
    show LogWriterPrefix.Write _ l now P = _
    unfold LogWriterPrefix.Write
    simp only [if_true]
    rw [hr]
    rfl
  have hnl : [] ++ (Q ++ P) ++ nl (Q ++ P) =
      if (Q ++ P).getLast? = some 10 then Q ++ P else Q ++ P ++ [10] := by
    unfold nl
    have hne : Q ++ P ≠ [] := by simp [hQ]
    by_cases h : (Q ++ P).getLast? = some 10
    · rw [if_pos h, if_neg (by simp [hne, h])]
      simp
    · rw [if_neg h, if_pos (Or.inr h)]
      simp
  refine ⟨_, hw, ?_, rfl, rfl, ?_⟩
  · show [[] ++ (Q ++ P) ++ nl (Q ++ P)] = _
    rw [hnl]
  · intro hP
    show [[] ++ (Q ++ P) ++ nl (Q ++ P)] = _
    rw [hnl, List.getLast?_append_of_ne_nil Q hP]

/-- C9 amended, at the prefix `[IO] ` and the payload `testA` with its newline: the sink
receives `[IO] testA` and one newline, and `Write` returns 11. -/
theorem C9_witness :
    bytes "[IO] " ≠ [] ∧ exLogger.flagFormat = F_NONE ∧ exLogger.flagCat &&& C_IO ≠ 0 ∧
    ∃ r, (NewWriter C_IO (bytes "[IO] ")).Write exLogger exTime (bytes "testA\n") = some r ∧
      r.res.writes = [if (bytes "[IO] " ++ bytes "testA\n").getLast? = some 10
        then bytes "[IO] " ++ bytes "testA\n" else bytes "[IO] " ++ bytes "testA\n" ++ [10]] ∧
      r.n = (bytes "testA\n").length + (bytes "[IO] ").length ∧ r.err = none ∧
      (bytes "testA\n" ≠ [] → r.res.writes = [if (bytes "testA\n").getLast? = some 10
        then bytes "[IO] " ++ bytes "testA\n" else bytes "[IO] " ++ bytes "testA\n" ++ [10]]) :=
  ⟨by decide, rfl, by decide,
    C9_prefixed_writer_output exLogger exTime C_IO (bytes "[IO] ") (bytes "testA\n")
      (by decide) rfl (by decide)⟩

/-- C10: the `Write` of the `Discard` sink returns a nil error but the count 0 on every slice,
so on the one-byte slice `a` it does not report `len(p)` consumed bytes. -/
theorem C10_discard_write_reports_zero :
    (∀ p : List UInt8, Discard p = (0, none)) ∧
    Discard (bytes "a") = (0, none) ∧ (Discard (bytes "a")).1 ≠ ((bytes "a").length : Int) := by
  refine ⟨fun _ => rfl, rfl, by decide⟩

/-- C11 as stated fails: the default instance `std` is built by an option that calls `SetFormat()`
without arguments, so its format is `F_NONE` and not `F_TIME|F_PREFIX`, and the package-level
`Print` on the untouched `std` writes `test1` and a newline with no time header. -/
theorem C11_counterexample_std_format_is_none :
    (std bufferSink).flagFormat = F_NONE ∧ (std bufferSink).flagFormat ≠ F_TIME ||| F_PREFIX ∧
    (std bufferSink).flagFormat ≠ (New bufferSink []).flagFormat ∧
    (std_Print (std bufferSink) exTime (bytes "test1")).map (fun r => r.writes) =
      some [bytes "test1\n"] ∧
    bytes "test1\n" ≠ bytes "05:06:07 test1\n" := by
  refine ⟨rfl, by decide, by decide, rfl, by decide⟩

/-- C11, amended: the default instance `std` has filter `C_ALL`, empty prefix and no override as a
logger of `New()` has, but format `F_NONE`; so the package-level `Print(s)` on the untouched
`std` writes `s`, and a newline unless `s` ends in one, with no header. -/
theorem C11_std_defaults (stderr : Writer) (now : Time) (s : List UInt8) :
    (std stderr).flagFormat = F_NONE ∧
    (std stderr).flagCat = C_ALL ∧ (std stderr).flagCat = (New stderr []).flagCat ∧
    (std stderr).prefix_ = [] ∧ (std stderr).prefix_ = (New stderr []).prefix_ ∧
    (std stderr).bAltOut = false ∧ (std stderr).bAltOut = (New stderr []).bAltOut ∧
    (std stderr).out = stderr ∧
    ∃ r, std_Print (std stderr) now s = some r ∧ r.writes = [s ++ nl s] := by
  refine ⟨rfl, rfl, rfl, rfl, rfl, rfl, rfl, rfl, ?_⟩
  have hh := formatHeader_none (std stderr) [] now rfl
  have hr := Output_eq (std stderr) now C_GLOBAL s _ rfl hh
  have hc : (std stderr).flagCat &&& C_GLOBAL ≠ 0 := by
    show C_ALL &&& C_GLOBAL ≠ 0
    decide
  rw [if_pos hc] at hr
  have hp := congrArg (Option.map Prod.fst) hr
  exact ⟨_, hp, rfl⟩

/-- The filter `C_ALL` lets every nonzero 64-bit category through. -/
theorem C_ALL_and (C : Nat) (h0 : C ≠ 0) (hlt : C < 2 ^ 64) : C_ALL &&& C ≠ 0 := by
  have : C_ALL &&& C = C := by
    rw [Nat.land_comm]
    show C &&& 2 ^ 64 - 1 = C
    rw [Nat.and_pow_two_sub_one_eq_mod]
    exact Nat.mod_eq_of_lt hlt
  rw [this]
  exact h0

/-- The header of a logger whose format is `F_TIME|F_PREFIX`: the clock and the prefix. -/
theorem formatHeader_time_prefix (l : Alog) (buf : List UInt8) (t : Time)
    (hf : l.flagFormat = F_TIME ||| F_PREFIX) :
    formatHeader l buf t =
      some (buf ++ (pad2 t.loc.hour.toNat ++ [58] ++ pad2 t.loc.min.toNat ++ [58] ++
        pad2 t.loc.sec.toNat ++ [32] ++ l.prefix_)) := by
  have h1 : l.flagFormat &&& (F_DATE ||| F_TIME ||| F_MICROSECONDS) ≠ 0 := by rw [hf]; decide
  have h2 : ¬ (l.flagFormat &&& F_UTC ≠ 0) := by rw [hf]; decide
  have h3 : ¬ (l.flagFormat &&& F_DATE ≠ 0) := by rw [hf]; decide
  have h4 : l.flagFormat &&& (F_TIME ||| F_MICROSECONDS) ≠ 0 := by rw [hf]; decide
  have h5 : ¬ (l.flagFormat &&& F_MICROSECONDS ≠ 0) := by rw [hf]; decide
  have h6 : l.flagFormat &&& F_PREFIX ≠ 0 := by rw [hf]; decide
  unfold formatHeader
  rw [if_pos h1, if_neg h2]
  simp only [Option.bind_eq_bind, if_pos h6]
  unfold formatDate
  rw [if_neg h3]
  simp only [Option.pure_def, Option.some_bind]
  rw [formatClock_eq, if_pos h4, if_neg h5]
  simp

/-- C12: a logger of `New()` has empty prefix, format `F_TIME|F_PREFIX`, filter `C_ALL` and no
override; for every nonzero category, message and time its `Output` writes the 9-byte header
`HH:MM:SS` and a space, then `s`, then a newline unless `s` ends in one; with options, `New`
applies them in argument order to that default state. -/
theorem C12_new_defaults (stderr : Writer) (now : Time) (C : Nat) (s : List UInt8)
    (opts : List Opt) (h0 : C ≠ 0) (hlt : C < 2 ^ 64) :
    (New stderr []).prefix_ = [] ∧ (New stderr []).flagFormat = F_TIME ||| F_PREFIX ∧
    (New stderr []).flagCat = C_ALL ∧ (New stderr []).bAltOut = false ∧
    (New stderr []).out = stderr ∧
    (∃ r, Output (New stderr []) now C s = some r ∧
      r.1.writes = [pad2 now.loc.hour.toNat ++ [58] ++ pad2 now.loc.min.toNat ++ [58] ++
        pad2 now.loc.sec.toNat ++ [32] ++ s ++ nl s]) ∧
    (pad2 now.loc.hour.toNat ++ [58] ++ pad2 now.loc.min.toNat ++ [58] ++
        pad2 now.loc.sec.toNat ++ [32]).length = 9 ∧
    New stderr opts = opts.foldl (fun l opt => opt l) (New stderr []) := by
  refine ⟨rfl, rfl, rfl, rfl, rfl, ?_, rfl, rfl⟩
  have hh := formatHeader_time_prefix (New stderr []) [] now rfl
  have hr := Output_eq (New stderr []) now C s _ rfl hh
  have hc : (New stderr []).flagCat &&& C ≠ 0 := C_ALL_and C h0 hlt
  rw [if_pos hc] at hr
  refine ⟨_, hr, ?_⟩
  show [[] ++ (_ ++ ([] : List UInt8)) ++ s ++ nl s] = _
  simp

/-- C12, at the category `C_INFO` and the message `test2`, with the options of the default
instance. -/
theorem C12_witness :
    C_INFO ≠ 0 ∧ C_INFO < 2 ^ 64 ∧
    (∃ r, Output (New bufferSink []) exTime C_INFO (bytes "test2") = some r ∧
      r.1.writes = [pad2 exTime.loc.hour.toNat ++ [58] ++ pad2 exTime.loc.min.toNat ++ [58] ++
        pad2 exTime.loc.sec.toNat ++ [32] ++ bytes "test2" ++ nl (bytes "test2")]) ∧
    pad2 exTime.loc.hour.toNat ++ [58] ++ pad2 exTime.loc.min.toNat ++ [58] ++
        pad2 exTime.loc.sec.toNat ++ [32] ++ bytes "test2" ++ nl (bytes "test2")
      = bytes "05:06:07 test2\n" :=
  ⟨by decide, by decide,
    (C12_new_defaults bufferSink exTime C_INFO (bytes "test2") [] (by decide) (by decide)).2.2.2.2.2.1,
    by decide⟩

/-- C13 as stated fails: `C_DEBUG` is bit 10, not bit 0, and the five level categories together
are `0x7C00`, not `0x1F`. -/
theorem C13_counterexample_levels_not_low_bits :
    C_DEBUG ≠ 1 <<< 0 ∧ C_DEBUG = 1 <<< 10 ∧
    C_DEBUG ||| C_INFO ||| C_WARN ||| C_ERROR ||| C_FATAL ≠ 0x1F ∧
    (C_DEBUG ||| C_INFO ||| C_WARN ||| C_ERROR ||| C_FATAL) &&& 0x1F = 0 := by
  refine ⟨by decide, rfl, by decide, by decide⟩

/-- C13, amended: `C_DEBUG`, `C_INFO`, `C_WARN`, `C_ERROR` and `C_FATAL` are the single bits 10
to 14 of the category mask, together `0x7C00`, and the structural categories `C_SYSTEM` to
`C_GLOBAL` are the bits 15 to 25 directly above them. -/
theorem C13_level_categories_bits_10_to_14 :
    [C_DEBUG, C_INFO, C_WARN, C_ERROR, C_FATAL] = [2 ^ 10, 2 ^ 11, 2 ^ 12, 2 ^ 13, 2 ^ 14] ∧
    C_DEBUG ||| C_INFO ||| C_WARN ||| C_ERROR ||| C_FATAL = 0x7C00 ∧
    [C_SYSTEM, C_IO, C_NET, C_SERVICE, C_REQ, C_RES, C_TIMED, C_API, C_BACK, C_FRONT, C_GLOBAL] =
      [2 ^ 15, 2 ^ 16, 2 ^ 17, 2 ^ 18, 2 ^ 19, 2 ^ 20, 2 ^ 21, 2 ^ 22, 2 ^ 23, 2 ^ 24, 2 ^ 25] ∧
    C_GLOBAL < 2 ^ 64 := by
  refine ⟨by decide, by decide, by decide, by decide⟩

/-! ## `itoa` on every width it supports -/

/-- The loop of `itoa` does not index out of range when the value has at most `m + 1` digits,
`m` rounds fit, and the width neither exceeds the room left nor can wrap within `m` rounds. -/
theorem itoaLoop_isSome_of_digits (bp : Nat) : ∀ (m : Nat) (b : List UInt8) (i wid : Int),
    bp < 20 → m ≤ bp → i < 10 ^ (m + 1) → wid ≤ bp + 1 → -(2 : Int) ^ 63 + m ≤ wid →
    (itoaLoop bp b i wid).isSome = true := by
  induction bp with
  | zero =>
    intro m b i wid _ hm hi hw _
    unfold itoaLoop
    have hm0 : m = 0 := by omega
    subst hm0
    have hc : ¬ (i ≥ 10 ∨ wid > 1) := by
      simp at hi hw
      omega
    simp [hc]
  | succ k ih =>
    intro m b i wid hk hm hi hw hlo
    unfold itoaLoop
    by_cases hc : i ≥ 10 ∨ wid > 1
    · simp only [hc, if_true]
      have hm1 : (i ≥ 10 → 1 ≤ m) := by
        intro h10
        rcases Nat.eq_zero_or_pos m with h | h
        · subst h
          simp at hi
          omega
        · exact h
      have hwr : wrapInt (wid - 1) = wid - 1 := by
        apply wrapInt_of_range
        · rcases hc with h10 | hw1
          · have := hm1 h10
            push_cast at hlo ⊢
            omega
          · omega
        · push_cast at hw ⊢
          omega
      rw [hwr]
      apply ih (m - 1)
      · omega
      · omega
      · rcases lt_or_le i 0 with hneg | hpos
        · rw [tdiv_ten_of_neg hneg]
          have : (0 : Int) < 10 ^ (m - 1 + 1) := by positivity
          omega
        · rw [tdiv_ten_of_nonneg hpos]
          rcases Nat.eq_zero_or_pos m with h | h
          · subst h
            simp at hi ⊢
            omega
          · have e : m - 1 + 1 = m := by omega
            have : (10 : Int) ^ (m + 1) = 10 ^ m * 10 := by ring
            rw [e]
            omega
      · push_cast at hw ⊢
        omega
      · rcases hc with h10 | hw1
        · have := hm1 h10
          have e : ((m - 1 : Nat) : Int) = (m : Int) - 1 := by omega
          rw [e]
          omega
        · have e : ((m - 1 : Nat) : Int) ≤ 19 := by omega
          omega
    · simp [hc]

/-- On a natural number of at most `m + 1` digits, under the same conditions, the loop of `itoa`
leaves `render` in front of the untouched tail of the array. -/
theorem itoaLoop_nat_of_digits (bp : Nat) : ∀ (m : Nat) (b : List UInt8) (n : Nat) (wid : Int),
    bp < 20 → bp < b.length → m ≤ bp → n < 10 ^ (m + 1) → wid ≤ bp + 1 →
    -(2 : Int) ^ 63 + m ≤ wid →
    itoaLoop bp b n wid = some (render n wid.toNat ++ b.drop (bp + 1)) := by
  induction bp with
  | zero =>
    intro m b n wid _ hb hm hn hw _
    have hm0 : m = 0 := by omega
    subst hm0
    unfold itoaLoop
    have hc : ¬ ((n : Int) ≥ 10 ∨ wid > 1) := by
      simp at hn hw
      omega
    have hr : ¬ (n ≥ 10 ∨ wid.toNat > 1) := by
      simp at hn hw
      omega
    rw [if_neg hc, render, if_neg hr, drop_set_self b 0 _ hb, toByte_digit n (by simpa using hn)]
    simp
  | succ k ih =>
    intro m b n wid hk hb hm hn hw hlo
    unfold itoaLoop
    by_cases hc : (n : Int) ≥ 10 ∨ wid > 1
    · have hr : n ≥ 10 ∨ wid.toNat > 1 := by omega
      have hm1 : (n ≥ 10 → 1 ≤ m) := by
        intro h10
        rcases Nat.eq_zero_or_pos m with h | h
        · subst h
          simp at hn
          omega
        · exact h
      have hwr : wrapInt (wid - 1) = wid - 1 := by
        apply wrapInt_of_range
        · rcases hr with h10 | hw1
          · have := hm1 h10
            push_cast at hlo ⊢
            omega
          · omega
        · push_cast at hw ⊢
          omega
      rw [if_pos hc, render, if_pos hr]
      simp only
      have hq : Int.tdiv (n : Int) 10 = ((n / 10 : Nat) : Int) := by
        rw [tdiv_ten_of_nonneg (by omega)]
        omega
      have hd : (48 : Int) + n - Int.tdiv (n : Int) 10 * 10 = 48 + ((n % 10 : Nat) : Int) := by
        rw [hq]
        omega
      have hn' : n / 10 < 10 ^ (m - 1 + 1) := by
        rcases Nat.eq_zero_or_pos m with h | h
        · subst h
          simp at hn ⊢
          omega
        · have e : m - 1 + 1 = m := by omega
          have : (10 : Nat) ^ (m + 1) = 10 ^ m * 10 := by ring
          rw [e]
          omega
      have hlo' : -(2 : Int) ^ 63 + ((m - 1 : Nat) : Int) ≤ wid - 1 := by
        rcases hr with h10 | hw1
        · have := hm1 h10
          have e : ((m - 1 : Nat) : Int) = (m : Int) - 1 := by omega
          rw [e]
          omega
        · have e : ((m - 1 : Nat) : Int) ≤ 19 := by omega
          omega
      rw [hd, hq, toByte_digit _ (Nat.mod_lt _ (by decide)), hwr]
      rw [ih (m - 1) _ (n / 10) (wid - 1) (by omega) (by simpa using (by omega : k < b.length))
        (by omega) hn' (by push_cast at hw ⊢; omega) hlo']
      have ht : (wid - 1).toNat = wid.toNat - 1 := by omega
      rw [ht, drop_set_self b (k + 1) _ hb]
      simp
    · have hr : ¬ (n ≥ 10 ∨ wid.toNat > 1) := by omega
      rw [if_neg hc, render, if_neg hr, drop_set_self b (k + 1) _ hb,
        toByte_digit n (by omega)]
      simp

/-- A Go `int` is below `10^19`. -/
theorem int63_lt_pow (i : Int) (h : i < 2 ^ 63) : i < 10 ^ (18 + 1) := by
  norm_num at h ⊢
  omega

/-- The function `itoa` returns on every Go `int` for every width from `-2^63 + 18` to 20. -/
theorem itoa_isSome (buf : List UInt8) (i wid : Int) (hi : i < 2 ^ 63)
    (hlo : -(2 : Int) ^ 63 + 18 ≤ wid) (hw : wid ≤ 20) : (itoa buf i wid).isSome = true := by
  have h := itoaLoop_isSome_of_digits 19 18 (List.replicate 20 0) i wid (by decide) (by decide)
    (int63_lt_pow i hi) (by simpa using hw) (by simpa using hlo)
  unfold itoa
  simpa using h

/-- On a non-negative Go `int`, for every width from `-2^63 + 18` to 20, `itoa` appends
`render`. -/
theorem itoa_render (buf : List UInt8) (n : Nat) (wid : Int) (hn : (n : Int) < 2 ^ 63)
    (hlo : -(2 : Int) ^ 63 + 18 ≤ wid) (hw : wid ≤ 20) :
    itoa buf n wid = some (buf ++ render n wid.toNat) := by
  have hn' : n < 10 ^ (18 + 1) := by
    have := int63_lt_pow n hn
    exact_mod_cast this
  unfold itoa
  rw [itoaLoop_nat_of_digits 19 18 _ n wid (by decide) (by simp) (by decide) hn'
    (by simpa using hw) (by simpa using hlo)]
  simp

/-! ## `render` is the zero-padded decimal numeral -/

theorem decimal_zero : decimal 0 = [] := by
  simp [decimal]

theorem decimal_of_pos (n : Nat) (h : 0 < n) :
    decimal n = decimal (n / 10) ++ [digit (n % 10)] := by
  unfold decimal
  rw [Nat.digits_def' (by decide) h]
  simp

theorem decimal_length_pos (n : Nat) (h : 0 < n) : 0 < (decimal n).length := by
  rw [decimal_of_pos n h]
  simp

theorem replicate_snoc (k : Nat) (a : UInt8) :
    List.replicate k a ++ [a] = List.replicate (k + 1) a := by
  induction k with
  | zero => rfl
  | succ k ih =>
    rw [List.replicate_succ, List.cons_append, ih]
    rfl

/-- What `itoa` emits is the decimal numeral padded with zeros to the width, with at least one
digit. -/
theorem render_eq_zeroPad (n w : Nat) :
    render n w = zeroPad (max (max w (decimal n).length) 1) (decimal n) := by
  induction n, w using render.induct with
  | case1 n w hc ih =>
    rw [render, if_pos hc, ih]
    unfold zeroPad
    rcases Nat.eq_zero_or_pos n with h0 | hpos
    · subst h0
      have hw : w > 1 := by omega
      simp only [Nat.zero_div, Nat.zero_mod, decimal_zero, List.length_nil, List.append_nil]
      have e : max (max (w - 1) 0) 1 - 0 + 1 = max (max w 0) 1 - 0 := by omega
      rw [← e]
      exact replicate_snoc _ _
    · rw [decimal_of_pos n hpos, List.append_assoc]
      congr 1
      congr 1
      simp only [List.length_append, List.length_singleton]
      rcases hc with h10 | hw
      · have := decimal_length_pos (n / 10) (by omega)
        omega
      · omega
  | case2 n w hc =>
    rw [render, if_neg hc]
    unfold zeroPad
    rcases Nat.eq_zero_or_pos n with h0 | hpos
    · subst h0
      have e : max (max w (decimal 0).length) 1 - (decimal 0).length = 1 := by
        rw [decimal_zero]
        simp only [List.length_nil]
        omega
      rw [e, decimal_zero]
      rfl
    · have hd : decimal n = [digit n] := by
        unfold decimal
        rw [Nat.digits_of_lt 10 n (by omega) (by omega)]
        rfl
      have e : max (max w (decimal n).length) 1 - (decimal n).length = 0 := by
        rw [hd]
        simp only [List.length_singleton]
        omega
      rw [e, hd]
      rfl

theorem digit_toNat (d : Nat) (h : d < 10) : (digit d).toNat - 48 = d := by
  have : d = 0 ∨ d = 1 ∨ d = 2 ∨ d = 3 ∨ d = 4 ∨ d = 5 ∨ d = 6 ∨ d = 7 ∨ d = 8 ∨ d = 9 := by
    omega
  rcases this with h | h | h | h | h | h | h | h | h | h <;> subst h <;> rfl

theorem readDecimal_snoc (ds : List UInt8) (b : UInt8) :
    readDecimal (ds ++ [b]) = 10 * readDecimal ds + (b.toNat - 48) := by
  unfold readDecimal
  rw [List.foldl_append]
  rfl

/-- Reading back what `itoa` emits gives the number. -/
theorem readDecimal_render (n w : Nat) : readDecimal (render n w) = n := by
  induction n, w using render.induct with
  | case1 n w hc ih =>
    rw [render, if_pos hc, readDecimal_snoc, ih, digit_toNat _ (Nat.mod_lt _ (by decide))]
    omega
  | case2 n w hc =>
    rw [render, if_neg hc]
    show 10 * 0 + ((digit n).toNat - 48) = n
    rw [digit_toNat n (by omega)]
    omega

theorem zeroPad_length (len : Nat) (ds : List UInt8) (h : ds.length ≤ len) :
    (zeroPad len ds).length = len := by
  unfold zeroPad
  simp only [List.length_append, List.length_replicate]
  omega

set_option maxRecDepth 100000

/-- C14: for `0 ≤ i < 2^63` and every minimum width of at most 20 (every width from 0 to 20;
the statement takes any width from `-2^63 + 18` on), `itoa` keeps `buf` and appends the decimal
digits of `i` left-padded with zeros to the length `max(wid, number of digits, 1)`, never
truncated; read back as a decimal number the appended bytes give `i`. -/
theorem C14_itoa_appends_zero_padded_decimal (buf : List UInt8) (i wid : Int)
    (h0 : 0 ≤ i) (h1 : i < 2 ^ 63) (hlo : -(2 : Int) ^ 63 + 18 ≤ wid) (hw : wid ≤ 20) :
    ∃ ds, itoa buf i wid = some (buf ++ ds) ∧
      ds = zeroPad ds.length (decimal i.toNat) ∧
      (ds.length : Int) = max (max wid ((decimal i.toNat).length : Int)) 1 ∧
      readDecimal ds = i.toNat := by
  obtain ⟨n, rfl⟩ := Int.eq_ofNat_of_zero_le h0
  have hr := itoa_render buf n wid h1 hlo hw
  have hlen : (render n wid.toNat).length = max (max wid.toNat (decimal n).length) 1 := by
    rw [render_eq_zeroPad, zeroPad_length _ _ (by omega)]
  refine ⟨render n wid.toNat, hr, ?_, ?_, ?_⟩
  · rw [Int.toNat_ofNat, hlen]
    exact render_eq_zeroPad n wid.toNat
  · rw [Int.toNat_ofNat, hlen]
    omega
  · rw [Int.toNat_ofNat]
    exact readDecimal_render n wid.toNat

/-- C14, at the value 12345 and the width 4: all five digits are appended. -/
theorem C14_witness :
    (0 : Int) ≤ 12345 ∧ (12345 : Int) < 2 ^ 63 ∧ -(2 : Int) ^ 63 + 18 ≤ 4 ∧ (4 : Int) ≤ 20 ∧
    itoa [] 12345 4 = some (bytes "12345") ∧
    ∃ ds, itoa [] 12345 4 = some ([] ++ ds) ∧
      ds = zeroPad ds.length (decimal (12345 : Int).toNat) ∧
      (ds.length : Int) = max (max 4 ((decimal (12345 : Int).toNat).length : Int)) 1 ∧
      readDecimal ds = (12345 : Int).toNat :=
  ⟨by decide, by decide, by decide, by decide, by decide,
    C14_itoa_appends_zero_padded_decimal [] 12345 4 (by decide) (by decide) (by decide)
      (by decide)⟩

/-- C16: for every 64-bit signed `i`, negative ones included, and every width of at most 20
(every width from 0 to 20; the statement takes any width from `-2^63 + 18` on), no index of
`itoa` leaves its 20-byte array, so `itoa` returns; and `formatHeader`, whose calls use the
widths 4, 2 and 6, returns for every logger, time and flag combination. -/
theorem C16_itoa_and_formatHeader_do_not_fail (buf : List UInt8) (i wid : Int) (l : Alog)
    (t : Time) (_hi0 : -(2 : Int) ^ 63 ≤ i) (hi1 : i < 2 ^ 63)
    (hlo : -(2 : Int) ^ 63 + 18 ≤ wid) (hw : wid ≤ 20) :
    (itoa buf i wid).isSome = true ∧ (formatHeader l buf t).isSome = true := by
  refine ⟨itoa_isSome buf i wid hi1 hlo hw, ?_⟩
  obtain ⟨h, hh⟩ := formatHeader_eq_some l buf t
  rw [hh]
  rfl

/-- C16, at the value `-7` and the width 20, and at the header of the default logger. -/
theorem C16_witness :
    -(2 : Int) ^ 63 ≤ -7 ∧ (-7 : Int) < 2 ^ 63 ∧ -(2 : Int) ^ 63 + 18 ≤ 20 ∧ (20 : Int) ≤ 20 ∧
    (itoa [] (-7) 20).isSome = true ∧ (formatHeader (New bufferSink []) [] exTime).isSome = true :=
  ⟨by decide, by decide, by decide, by decide,
    C16_itoa_and_formatHeader_do_not_fail [] (-7) 20 (New bufferSink []) exTime (by decide)
      (by decide) (by decide) (by decide)⟩

/-! ## Lemmas on the flag tests -/

theorem or_eq_zero_of (a b : Nat) (ha : a = 0) (hb : b = 0) : a ||| b = 0 := by
  subst ha hb
  rfl

theorem or_ne_zero_of_right (a b : Nat) (hb : b ≠ 0) : a ||| b ≠ 0 := by
  intro h
  apply hb
  apply Nat.eq_of_testBit_eq
  intro i
  have := congrArg (fun x => x.testBit i) h
  simp at this
  simp [this.2]

theorem or_ne_zero_of_left (a b : Nat) (ha : a ≠ 0) : a ||| b ≠ 0 := by
  rw [Nat.lor_comm]
  exact or_ne_zero_of_right b a ha

theorem and_or_right (a b c : Nat) : (a ||| b) &&& c = (a &&& c) ||| (b &&& c) := by
  rw [Nat.land_comm, Nat.and_or_distrib_left, Nat.land_comm c a, Nat.land_comm c b]

/-- Setting `F_TIME` changes no other flag test. -/
theorem or_time_and (f g : Nat) (hg : F_TIME &&& g = 0) : (f ||| F_TIME) &&& g = f &&& g := by
  rw [and_or_right, hg]
  simp

theorem itoa_append (buf : List UInt8) (i wid : Int) :
    itoa buf i wid = (itoa [] i wid).map (fun ds => buf ++ ds) := by
  unfold itoa
  cases itoaLoop 19 (List.replicate 20 0) i wid <;> simp

/-- The date block appends bytes that do not depend on the buffer, and none when `F_DATE` is
clear. -/
theorem formatDate_uniform (f : Nat) (t : Time) :
    ∃ ds, (∀ buf, formatDate f buf t = some (buf ++ ds)) ∧ (f &&& F_DATE = 0 → ds = []) := by
  by_cases hf : f &&& F_DATE ≠ 0
  · obtain ⟨a, ha⟩ := itoa_eq_some [] t.loc.year 4 t.loc.year_int.2 (by decide) (by decide)
    have hm := t.loc.month_range
    have hd := t.loc.day_range
    refine ⟨a ++ [47] ++ pad2 t.loc.month.toNat ++ [47] ++ pad2 t.loc.day.toNat ++ [32], ?_, ?_⟩
    · intro buf
      unfold formatDate
      rw [if_pos hf, itoa_append, ha]
      simp only [Option.map_some', Option.bind_eq_bind, Option.some_bind]
      rw [itoa_two _ _ (by omega) (by omega)]
      simp only [Option.bind_eq_bind, Option.some_bind]
      rw [itoa_two _ _ (by omega) (by omega)]
      simp
    · intro h0
      exact absurd h0 hf
  · refine ⟨[], ?_, fun _ => rfl⟩
    intro buf
    unfold formatDate
    rw [if_neg hf]
    simp

/-- The date block reads the flags only through the `F_DATE` test. -/
theorem formatDate_congr (f g : Nat) (buf : List UInt8) (t : Time)
    (h : f &&& F_DATE = g &&& F_DATE) : formatDate f buf t = formatDate g buf t := by
  unfold formatDate
  rw [h]

/-- The header, when one of the three time flags is set: date block, clock block, prefix. -/
theorem formatHeader_timed (l : Alog) (buf d : List UInt8) (t : Time)
    (h1 : l.flagFormat &&& (F_DATE ||| F_TIME ||| F_MICROSECONDS) ≠ 0)
    (hd : formatDate l.flagFormat buf (if l.flagFormat &&& F_UTC ≠ 0 then t.UTC else t) =
      some (buf ++ d)) :
    formatHeader l buf t =
      (formatClock l.flagFormat (buf ++ d) (if l.flagFormat &&& F_UTC ≠ 0 then t.UTC else t)).map
        (fun b => b ++ (if l.flagFormat &&& F_PREFIX ≠ 0 then l.prefix_ else [])) := by
  unfold formatHeader
  rw [if_pos h1]
  simp only [Option.bind_eq_bind]
  rw [hd]
  simp only [Option.some_bind]
  generalize formatClock l.flagFormat (buf ++ d)
    (if l.flagFormat &&& F_UTC ≠ 0 then t.UTC else t) = o
  by_cases hp : l.flagFormat &&& F_PREFIX ≠ 0
  · rw [if_pos hp]
    simp only [if_pos hp]
    cases o <;> rfl
  · rw [if_neg hp]
    simp only [if_neg hp]
    cases o <;> simp

/-- C17: when the format contains none of `F_DATE`, `F_TIME`, `F_MICROSECONDS`, `formatHeader`
appends no timestamp bytes for any time: the header is the prefix when `F_PREFIX` is set and
empty when it is not, with or without `F_UTC`; `F_UTC` alone renders nothing. -/
theorem C17_no_time_flags_no_timestamp (l : Alog) (buf : List UInt8) (t : Time)
    (hD : l.flagFormat &&& F_DATE = 0) (hT : l.flagFormat &&& F_TIME = 0)
    (hM : l.flagFormat &&& F_MICROSECONDS = 0) :
    formatHeader l buf t =
      some (buf ++ (if l.flagFormat &&& F_PREFIX ≠ 0 then l.prefix_ else [])) ∧
    (l.flagFormat &&& F_PREFIX ≠ 0 → formatHeader l buf t = some (buf ++ l.prefix_)) ∧
    (l.flagFormat &&& F_PREFIX = 0 → formatHeader l buf t = some buf) ∧
    (l.flagFormat = F_UTC → formatHeader l buf t = some buf) := by
  have h1 : ¬ (l.flagFormat &&& (F_DATE ||| F_TIME ||| F_MICROSECONDS) ≠ 0) := by
    rw [Nat.and_or_distrib_left, Nat.and_or_distrib_left, hD, hT, hM]
    decide
  have hp : l.flagFormat &&& F_PREFIX ≠ 0 → formatHeader l buf t = some (buf ++ l.prefix_) := by
    intro hp
    unfold formatHeader
    rw [if_neg h1]
    simp [hp]
  have hn : l.flagFormat &&& F_PREFIX = 0 → formatHeader l buf t = some buf := by
    intro hp
    unfold formatHeader
    rw [if_neg h1]
    simp [hp]
  refine ⟨?_, hp, hn, ?_⟩
  · by_cases h : l.flagFormat &&& F_PREFIX ≠ 0
    · rw [if_pos h]
      exact hp h
    · rw [if_neg h, List.append_nil]
      exact hn (by simpa using h)
  · intro hu
    apply hn
    rw [hu]
    decide

/-- C17, at the format `F_UTC|F_PREFIX` and the prefix `X`: the header is `X`. -/
theorem C17_witness :
    (SetPrefix (SetFormat exLogger [F_UTC, F_PREFIX]) (bytes "X")).flagFormat &&& F_DATE = 0 ∧
    (SetPrefix (SetFormat exLogger [F_UTC, F_PREFIX]) (bytes "X")).flagFormat &&& F_TIME = 0 ∧
    (SetPrefix (SetFormat exLogger [F_UTC, F_PREFIX]) (bytes "X")).flagFormat
      &&& F_MICROSECONDS = 0 ∧
    formatHeader (SetPrefix (SetFormat exLogger [F_UTC, F_PREFIX]) (bytes "X")) [] exTime =
      some (bytes "X") :=
  ⟨by decide, by decide, by decide,
    (C17_no_time_flags_no_timestamp (SetPrefix (SetFormat exLogger [F_UTC, F_PREFIX]) (bytes "X"))
      [] exTime (by decide) (by decide) (by decide)).2.1 (by decide)⟩

theorem nsec_toNat (c : Clock) : (c.nsec / 1000).toNat = c.nsec.toNat / 1000 := by
  have := c.nsec_range
  omega

/-- The header when `F_MICROSECONDS` is set, whatever `F_TIME` is. -/
theorem formatHeader_micro (f : Nat) (l : Alog) (buf d : List UInt8) (t : Time)
    (hf : l.flagFormat = f) (hM : f &&& F_MICROSECONDS ≠ 0)
    (hd : formatDate f buf (if f &&& F_UTC ≠ 0 then t.UTC else t) = some (buf ++ d)) :
    formatHeader l buf t =
      some (buf ++ d ++ stampClock (if f &&& F_UTC ≠ 0 then t.UTC else t).loc ++
        stampFraction (if f &&& F_UTC ≠ 0 then t.UTC else t).loc ++ [32] ++
        (if f &&& F_PREFIX ≠ 0 then l.prefix_ else [])) := by
  subst hf
  have h4 : l.flagFormat &&& (F_TIME ||| F_MICROSECONDS) ≠ 0 := by
    rw [Nat.and_or_distrib_left]
    exact or_ne_zero_of_right _ _ hM
  have h1 : l.flagFormat &&& (F_DATE ||| F_TIME ||| F_MICROSECONDS) ≠ 0 := by
    rw [Nat.and_or_distrib_left]
    exact or_ne_zero_of_right _ _ hM
  rw [formatHeader_timed l buf d t h1 hd, formatClock_eq, if_pos h4, if_pos hM, nsec_toNat]
  simp [stampClock, stampFraction]

/-- The header when `F_TIME` is set and `F_MICROSECONDS` is clear. -/
theorem formatHeader_seconds (l : Alog) (buf d : List UInt8) (t : Time)
    (hT : l.flagFormat &&& F_TIME ≠ 0) (hM : l.flagFormat &&& F_MICROSECONDS = 0)
    (hd : formatDate l.flagFormat buf (if l.flagFormat &&& F_UTC ≠ 0 then t.UTC else t) =
      some (buf ++ d)) :
    formatHeader l buf t =
      some (buf ++ d ++ stampClock (if l.flagFormat &&& F_UTC ≠ 0 then t.UTC else t).loc ++ [32] ++
        (if l.flagFormat &&& F_PREFIX ≠ 0 then l.prefix_ else [])) := by
  have h4 : l.flagFormat &&& (F_TIME ||| F_MICROSECONDS) ≠ 0 := by
    rw [Nat.and_or_distrib_left]
    exact or_ne_zero_of_left _ _ hT
  have h1 : l.flagFormat &&& (F_DATE ||| F_TIME ||| F_MICROSECONDS) ≠ 0 := by
    rw [Nat.and_or_distrib_left, Nat.and_or_distrib_left]
    exact or_ne_zero_of_left _ _ (or_ne_zero_of_right _ _ hT)
  have h5 : ¬ (l.flagFormat &&& F_MICROSECONDS ≠ 0) := by simp [hM]
  rw [formatHeader_timed l buf d t h1 hd, formatClock_eq, if_pos h4, if_neg h5]
  simp [stampClock]

/-- C18: the clock is rendered whenever `F_TIME` or `F_MICROSECONDS` is set. With
`F_MICROSECONDS` set the header is the date block, `HH:MM:SS.ffffff`, one space and the prefix
block, and setting `F_TIME` as well renders the same bytes; with `F_TIME` set and
`F_MICROSECONDS` clear it is the date block, `HH:MM:SS`, one space and the prefix block. The
fraction is the nanoseconds divided by 1000, truncated, on 6 digits; `d` is the date block,
empty when `F_DATE` is clear. -/
theorem C18_clock_rendered_for_time_or_microseconds (l : Alog) (buf : List UInt8) (t : Time) :
    ∃ d, (l.flagFormat &&& F_DATE = 0 → d = []) ∧
      (l.flagFormat &&& F_MICROSECONDS ≠ 0 →
        formatHeader l buf t =
          some (buf ++ d ++ stampClock (if l.flagFormat &&& F_UTC ≠ 0 then t.UTC else t).loc ++
            stampFraction (if l.flagFormat &&& F_UTC ≠ 0 then t.UTC else t).loc ++ [32] ++
            (if l.flagFormat &&& F_PREFIX ≠ 0 then l.prefix_ else [])) ∧
        formatHeader { l with flagFormat := l.flagFormat ||| F_TIME } buf t =
          formatHeader l buf t) ∧
      (l.flagFormat &&& F_TIME ≠ 0 → l.flagFormat &&& F_MICROSECONDS = 0 →
        formatHeader l buf t =
          some (buf ++ d ++ stampClock (if l.flagFormat &&& F_UTC ≠ 0 then t.UTC else t).loc ++
            [32] ++ (if l.flagFormat &&& F_PREFIX ≠ 0 then l.prefix_ else []))) := by
  obtain ⟨d, hd, hd0⟩ := formatDate_uniform l.flagFormat
    (if l.flagFormat &&& F_UTC ≠ 0 then t.UTC else t)
  refine ⟨d, hd0, ?_, ?_⟩
  · intro hM
    have hl := formatHeader_micro l.flagFormat l buf d t rfl hM (hd buf)
    refine ⟨hl, ?_⟩
    have eU : (l.flagFormat ||| F_TIME) &&& F_UTC = l.flagFormat &&& F_UTC :=
      or_time_and _ _ (by decide)
    have eD : (l.flagFormat ||| F_TIME) &&& F_DATE = l.flagFormat &&& F_DATE :=
      or_time_and _ _ (by decide)
    have eP : (l.flagFormat ||| F_TIME) &&& F_PREFIX = l.flagFormat &&& F_PREFIX :=
      or_time_and _ _ (by decide)
    have eM : (l.flagFormat ||| F_TIME) &&& F_MICROSECONDS = l.flagFormat &&& F_MICROSECONDS :=
      or_time_and _ _ (by decide)
    have hd' : formatDate (l.flagFormat ||| F_TIME) buf
        (if (l.flagFormat ||| F_TIME) &&& F_UTC ≠ 0 then t.UTC else t) = some (buf ++ d) := by
      rw [eU, formatDate_congr _ l.flagFormat buf _ eD]
      exact hd buf
    have hl' := formatHeader_micro (l.flagFormat ||| F_TIME)
      { l with flagFormat := l.flagFormat ||| F_TIME } buf d t rfl (by rw [eM]; exact hM) hd'
    rw [hl', hl, eU, eP]
  · intro hT hM
    exact formatHeader_seconds l buf d t hT hM (hd buf)

/-- C18, at 05:06:07.000008999: the format `F_MICROSECONDS` alone and the format
`F_TIME|F_MICROSECONDS` both render the clock with its fraction and one space, the format
`F_TIME` the clock and one space. -/
theorem C18_witness :
    formatHeader (SetFormat exLogger [F_MICROSECONDS]) [] exTime = some (bytes "05:06:07.000008 ") ∧
    formatHeader (SetFormat exLogger [F_TIME, F_MICROSECONDS]) [] exTime =
      some (bytes "05:06:07.000008 ") ∧
    formatHeader (SetFormat exLogger [F_TIME]) [] exTime = some (bytes "05:06:07 ") ∧
    ∃ d, ((SetFormat exLogger [F_TIME]).flagFormat &&& F_DATE = 0 → d = []) ∧
      ((SetFormat exLogger [F_TIME]).flagFormat &&& F_MICROSECONDS ≠ 0 →
        formatHeader (SetFormat exLogger [F_TIME]) [] exTime =
          some ([] ++ d ++
            stampClock (if (SetFormat exLogger [F_TIME]).flagFormat &&& F_UTC ≠ 0 then exTime.UTC
              else exTime).loc ++
            stampFraction (if (SetFormat exLogger [F_TIME]).flagFormat &&& F_UTC ≠ 0 then exTime.UTC
              else exTime).loc ++ [32] ++
            (if (SetFormat exLogger [F_TIME]).flagFormat &&& F_PREFIX ≠ 0
              then (SetFormat exLogger [F_TIME]).prefix_ else [])) ∧
        formatHeader { SetFormat exLogger [F_TIME] with
            flagFormat := (SetFormat exLogger [F_TIME]).flagFormat ||| F_TIME } [] exTime =
          formatHeader (SetFormat exLogger [F_TIME]) [] exTime) ∧
      ((SetFormat exLogger [F_TIME]).flagFormat &&& F_TIME ≠ 0 →
        (SetFormat exLogger [F_TIME]).flagFormat &&& F_MICROSECONDS = 0 →
        formatHeader (SetFormat exLogger [F_TIME]) [] exTime =
          some ([] ++ d ++
            stampClock (if (SetFormat exLogger [F_TIME]).flagFormat &&& F_UTC ≠ 0 then exTime.UTC
              else exTime).loc ++ [32] ++
            (if (SetFormat exLogger [F_TIME]).flagFormat &&& F_PREFIX ≠ 0
              then (SetFormat exLogger [F_TIME]).prefix_ else []))) :=
  ⟨by decide, by decide, by decide,
    C18_clock_rendered_for_time_or_microseconds (SetFormat exLogger [F_TIME]) [] exTime⟩

/-- The header reads the logger only through its format flags and its prefix. -/
theorem formatHeader_congr (l1 l2 : Alog) (buf : List UInt8) (t : Time)
    (hf : l1.flagFormat = l2.flagFormat) (hp : l1.prefix_ = l2.prefix_) :
    formatHeader l1 buf t = formatHeader l2 buf t := by
  unfold formatHeader
  rw [hf, hp]

/-- C19: the scratch buffer is reset at the start of every formatted call. For two logger states
that agree on format flags, prefix and filter, whatever their scratch buffers and sinks, the same
`Outputb` call at the same time writes the same bytes, and so does the same `Output` call when
the two states agree on whether an override is active; after a call that reaches the formatted
path the scratch buffer is exactly what was written. -/
theorem C19_written_bytes_independent_of_scratch_buffer (l1 l2 : Alog) (now : Time) (C : Nat)
    (s : List UInt8) (hf : l1.flagFormat = l2.flagFormat) (hp : l1.prefix_ = l2.prefix_)
    (hc : l1.flagCat = l2.flagCat) :
    (∃ r1 r2, Outputb l1 now C s = some r1 ∧ Outputb l2 now C s = some r2 ∧
      r1.1.writes = r2.1.writes ∧
      (l1.flagCat &&& C ≠ 0 → r1.1.writes = [r1.1.l.buf] ∧ r2.1.writes = [r2.1.l.buf])) ∧
    (l1.bAltOut = l2.bAltOut →
      ∃ q1 q2, Output l1 now C s = some q1 ∧ Output l2 now C s = some q2 ∧
        q1.1.writes = q2.1.writes ∧
        (l1.flagCat &&& C ≠ 0 → l1.bAltOut = false →
          q1.1.writes = [q1.1.l.buf] ∧ q2.1.writes = [q2.1.l.buf])) := by
  obtain ⟨h, hh1⟩ := formatHeader_eq_some l1 [] now
  have hh2 : formatHeader l2 [] now = some ([] ++ h) := by
    rw [← formatHeader_congr l1 l2 [] now hf hp]
    exact hh1
  constructor
  · have e1 := Outputb_eq l1 now C s _ hh1
    have e2 := Outputb_eq l2 now C s _ hh2
    rw [← hc] at e2
    refine ⟨_, _, e1, e2, ?_, ?_⟩
    · by_cases hm : l1.flagCat &&& C ≠ 0
      · rw [if_pos hm, if_pos hm]
      · rw [if_neg hm, if_neg hm]
    · intro hm
      rw [if_pos hm, if_pos hm]
      exact ⟨rfl, rfl⟩
  · intro hb
    by_cases ha : l1.bAltOut = false
    · have ha2 : l2.bAltOut = false := by rw [← hb]; exact ha
      have e1 := Output_eq l1 now C s _ ha hh1
      have e2 := Output_eq l2 now C s _ ha2 hh2
      rw [← hc] at e2
      refine ⟨_, _, e1, e2, ?_, ?_⟩
      · by_cases hm : l1.flagCat &&& C ≠ 0
        · rw [if_pos hm, if_pos hm]
        · rw [if_neg hm, if_neg hm]
      · intro hm _
        rw [if_pos hm, if_pos hm]
        exact ⟨rfl, rfl⟩
    · have ha1 : l1.bAltOut = true := by simpa using ha
      have ha2 : l2.bAltOut = true := by rw [← hb]; exact ha1
      by_cases hm : l1.flagCat &&& C ≠ 0
      · have hm2 : l2.flagCat &&& C ≠ 0 := by rw [← hc]; exact hm
        refine ⟨({ l := l1, writes := [], altCalls := [(C, s)] }, l1.altOutput C s),
          ({ l := l2, writes := [], altCalls := [(C, s)] }, l2.altOutput C s), ?_, ?_, rfl, ?_⟩
        · unfold Output
          rw [if_pos hm, if_pos ha1]
          rfl
        · unfold Output
          rw [if_pos hm2, if_pos ha2]
          rfl
        · intro _ h0
          exact absurd h0 ha
      · have hm2 : ¬ (l2.flagCat &&& C ≠ 0) := by rw [← hc]; exact hm
        refine ⟨({ l := l1, writes := [], altCalls := [] }, none),
          ({ l := l2, writes := [], altCalls := [] }, none), ?_, ?_, rfl, ?_⟩
        · unfold Output
          rw [if_neg hm]
          rfl
        · unfold Output
          rw [if_neg hm2]
          rfl
        · intro h0
          exact absurd h0 hm

/-- C19, at two states of the logger of the tests whose scratch buffers differ. -/
theorem C19_witness :
    ({ exLogger with buf := bytes "old\n" } : Alog).flagFormat = exLogger.flagFormat ∧
    ({ exLogger with buf := bytes "old\n" } : Alog).prefix_ = exLogger.prefix_ ∧
    ({ exLogger with buf := bytes "old\n" } : Alog).flagCat = exLogger.flagCat ∧
    ({ exLogger with buf := bytes "old\n" } : Alog).buf ≠ exLogger.buf ∧
    ∃ r1 r2, Outputb { exLogger with buf := bytes "old\n" } exTime C_IO (bytes "m") = some r1 ∧
      Outputb exLogger exTime C_IO (bytes "m") = some r2 ∧ r1.1.writes = r2.1.writes ∧
      (({ exLogger with buf := bytes "old\n" } : Alog).flagCat &&& C_IO ≠ 0 →
        r1.1.writes = [r1.1.l.buf] ∧ r2.1.writes = [r2.1.l.buf]) :=
  ⟨rfl, rfl, rfl, by decide,
    (C19_written_bytes_independent_of_scratch_buffer { exLogger with buf := bytes "old\n" }
      exLogger exTime C_IO (bytes "m") rfl rfl rfl).1⟩

/-- C20: the writer adapters never report a failure or a short write. `LogWriter.Write(p)`
returns `(len(p), nil)`, `LogWriterPrefix.Write(p)` returns `len(p)` plus its prefix size, which
for a writer of `NewWriter` is `len(p) + len(prefix)`, and a nil error, for every logger state:
also when the filter rejects the category, where nothing is written, and whatever error the
sink's `Write` makes `Outputb` return. -/
theorem C20_adapters_report_full_write (l : Alog) (now : Time) (p : List UInt8)
    (dw : LogWriter) (dp : LogWriterPrefix) (C : Nat) (Q : List UInt8) :
    (∃ r e, dw.Write l now p = some r ∧ Outputb l now dw.flagCat p = some (r.res, e) ∧
      r.n = p.length ∧ r.err = none ∧ (l.flagCat &&& dw.flagCat = 0 → r.res.writes = [])) ∧
    (∃ r, dp.Write l now p = some r ∧ r.err = none ∧
      r.n = (if dp.usePrefix = true then (p.length : Int) + dp.prefixSize else p.length) ∧
      (l.flagCat &&& dp.flagCat = 0 → r.res.writes = [])) ∧
    (Q ≠ [] → ∃ r e, (NewWriter C Q).Write l now p = some r ∧
      Outputb l now C (Q ++ p) = some (r.res, e) ∧
      r.n = p.length + Q.length ∧ r.err = none ∧ (l.flagCat &&& C = 0 → r.res.writes = [])) ∧
    (∃ r, (NewWriter C []).Write l now p = some r ∧ r.n = p.length ∧ r.err = none) := by
  obtain ⟨h, hh⟩ := formatHeader_eq_some l [] now
  have plain : ∀ (c : Nat) (b : List UInt8), ∃ r, Outputb l now c b = some r ∧
      (l.flagCat &&& c = 0 → r.1.writes = []) := by
    intro c b
    refine ⟨_, Outputb_eq l now c b _ hh, ?_⟩
    intro h0
    rw [if_neg (by simp [h0])]
  refine ⟨?_, ?_, ?_, ?_⟩
  · obtain ⟨r, hr, hw⟩ := plain dw.flagCat p
    refine ⟨{ res := r.1, n := p.length, err := none }, r.2, ?_, hr, rfl, rfl, hw⟩
    unfold LogWriter.Write
    rw [hr]
    rfl
  · by_cases hu : dp.usePrefix = true
    · obtain ⟨r, hr, hw⟩ := plain dp.flagCat (dp.prefix_ ++ p)
      refine ⟨{ res := r.1, n := p.length + dp.prefixSize, err := none }, ?_, rfl, ?_, hw⟩
      · unfold LogWriterPrefix.Write
        rw [if_pos hu, hr]
        rfl
      · rw [if_pos hu]
    · obtain ⟨r, hr, hw⟩ := plain dp.flagCat p
      refine ⟨{ res := r.1, n := p.length, err := none }, ?_, rfl, ?_, hw⟩
      · unfold LogWriterPrefix.Write
        rw [if_neg hu, hr]
        rfl
      · rw [if_neg hu]
  · intro hQ
    obtain ⟨r, hr, hw⟩ := plain C (Q ++ p)
    refine ⟨{ res := r.1, n := p.length + Q.length, err := none }, r.2, ?_, hr, rfl, rfl, hw⟩
    unfold NewWriter
    rw [if_pos hQ]
    show LogWriterPrefix.Write _ l now p = _
    unfold LogWriterPrefix.Write
    simp only [if_true]
    rw [hr]
    rfl
  · obtain ⟨r, hr, _⟩ := plain C p
    refine ⟨{ res := r.1, n := p.length, err := none }, ?_, rfl, rfl⟩
    unfold NewWriter
    rw [if_neg (by simp)]
    show LogWriter.Write _ l now p = _
    unfold LogWriter.Write
    rw [hr]
    rfl

/-- C20, at a sink whose every write fails: `Outputb` returns the error of the sink, the
prefixed writer returns 7 and a nil error. -/
theorem C20_witness :
    bytes "[IO] " ≠ [] ∧
    (Outputb (SetOutput exLogger failSink) exTime C_IO (bytes "[IO] " ++ bytes "hi")).map Prod.snd
      = some (some "sink failed") ∧
    ((NewWriter C_IO (bytes "[IO] ")).Write (SetOutput exLogger failSink) exTime (bytes "hi")).map
      (fun r => (r.n, r.err)) = some (7, none) ∧
    ∃ r e, (NewWriter C_IO (bytes "[IO] ")).Write (SetOutput exLogger failSink) exTime
        (bytes "hi") = some r ∧
      Outputb (SetOutput exLogger failSink) exTime C_IO (bytes "[IO] " ++ bytes "hi")
        = some (r.res, e) ∧
      r.n = (bytes "hi").length + (bytes "[IO] ").length ∧ r.err = none ∧
      ((SetOutput exLogger failSink).flagCat &&& C_IO = 0 → r.res.writes = []) :=
  ⟨by decide, by decide, by decide,
    (C20_adapters_report_full_write (SetOutput exLogger failSink) exTime (bytes "hi")
      { flagCat := C_IO } { flagCat := C_IO, prefix_ := [], prefixSize := 0, usePrefix := false }
      C_IO (bytes "[IO] ")).2.2.1 (by decide)⟩

end alog
